import Mathlib

/-!
Verification of the log-entry encoding engine of `smallstep/logging`
(`encoder/generic_encoder.go`, `encoder/text_encoder.go`,
`encoder/clf_encoder.go`).

Buffers of the JSON-shaped object encoder are modelled as `List Nat`
(byte values); buffers of the text and CLF encoders are modelled as
`String` (those encoders only ever append whole UTF-8 strings).
External collaborators (the Go standard library's `unicode/utf8`,
`strconv`, `encoding/json`, `encoding/base64`, `time` packages and the
zap field dispatch) are modelled explicitly where the encoders' observable
behaviour depends on them.
-/

/-! ## Bytes and UTF-8 decoding (model of Go `unicode/utf8.DecodeRune`) -/

/-- Decode the first rune of a byte sequence, returning the code point and the
number of bytes consumed, exactly as Go's `utf8.DecodeRune`: ASCII decodes to
itself with size 1; well-formed two-, three- and four-byte sequences (with the standard
second-byte accept ranges excluding overlong forms, surrogates and values
above U+10FFFF) decode to their code point; anything else — bad lead byte,
bad continuation byte, or truncated sequence — yields `(0xFFFD, 1)`. -/
def decodeRune : List Nat → Nat × Nat
  | [] => (0xFFFD, 0)
  | b0 :: rest =>
    if b0 < 0x80 then (b0, 1)
    else if 0xC2 ≤ b0 ∧ b0 ≤ 0xDF then
      match rest with
      | b1 :: _ =>
        if 0x80 ≤ b1 ∧ b1 ≤ 0xBF then ((b0 - 0xC0) * 64 + (b1 - 0x80), 2)
        else (0xFFFD, 1)
      | [] => (0xFFFD, 1)
    else if 0xE0 ≤ b0 ∧ b0 ≤ 0xEF then
      match rest with
      | b1 :: b2 :: _ =>
        if ((b0 = 0xE0 ∧ 0xA0 ≤ b1 ∧ b1 ≤ 0xBF) ∨
            (b0 = 0xED ∧ 0x80 ≤ b1 ∧ b1 ≤ 0x9F) ∨
            (b0 ≠ 0xE0 ∧ b0 ≠ 0xED ∧ 0x80 ≤ b1 ∧ b1 ≤ 0xBF)) ∧
           (0x80 ≤ b2 ∧ b2 ≤ 0xBF) then
          ((b0 - 0xE0) * 4096 + (b1 - 0x80) * 64 + (b2 - 0x80), 3)
        else (0xFFFD, 1)
      | _ => (0xFFFD, 1)
    else if 0xF0 ≤ b0 ∧ b0 ≤ 0xF4 then
      match rest with
      | b1 :: b2 :: b3 :: _ =>
        if ((b0 = 0xF0 ∧ 0x90 ≤ b1 ∧ b1 ≤ 0xBF) ∨
            (b0 = 0xF4 ∧ 0x80 ≤ b1 ∧ b1 ≤ 0x8F) ∨
            (b0 ≠ 0xF0 ∧ b0 ≠ 0xF4 ∧ 0x80 ≤ b1 ∧ b1 ≤ 0xBF)) ∧
           (0x80 ≤ b2 ∧ b2 ≤ 0xBF) ∧ (0x80 ≤ b3 ∧ b3 ≤ 0xBF) then
          ((b0 - 0xF0) * 262144 + (b1 - 0x80) * 4096 + (b2 - 0x80) * 64 + (b3 - 0x80), 4)
        else (0xFFFD, 1)
      | _ => (0xFFFD, 1)
    else (0xFFFD, 1)

/-- Lowercase hexadecimal digit characters, as byte values
(`_hex = "0123456789abcdef"` in `generic_encoder.go`). -/
def hexDigit (n : Nat) : Nat := if n < 10 then 48 + n else 87 + n

/-- Escape of a single byte below `utf8.RuneSelf`, as performed by
`objectEncoder.tryAddRuneSelf`: printable non-special bytes verbatim;
backslash and double quote escaped with a backslash; newline, carriage
return and tab as their two-character forms; all other control bytes
below 0x20 as a six-byte `\u00XX` escape. -/
def tryAddRuneSelf (b : Nat) : List Nat :=
  if 0x20 ≤ b ∧ b ≠ 92 ∧ b ≠ 34 then [b]
  else if b = 92 ∨ b = 34 then [92, b]
  else if b = 10 then [92, 110]
  else if b = 13 then [92, 114]
  else if b = 9 then [92, 116]
  else [92, 117, 48, 48, hexDigit (b / 16), hexDigit (b % 16)]

/-- Byte sequence of the escaped Unicode replacement character `�`
appended by `objectEncoder.tryAddRuneError`. -/
def runeErrorEsc : List Nat := [92, 117, 102, 102, 102, 100]

/-- JSON escaping loop of `objectEncoder.safeAppendString` /
`safeAddByteString`: single-byte runes go through `tryAddRuneSelf`;
when `utf8.DecodeRune` reports an invalid byte (`RuneError` with size 1)
the escaped replacement character is emitted and one byte is consumed;
otherwise the decoded multi-byte rune is copied verbatim. The appended
bytes are returned (the Go code appends them to the active buffer). -/
def safeAppendString : List Nat → List Nat
  | [] => []
  | b :: rest =>
    if b < 0x80 then tryAddRuneSelf b ++ safeAppendString rest
    else if (decodeRune (b :: rest)).1 = 0xFFFD ∧ (decodeRune (b :: rest)).2 = 1 then
      runeErrorEsc ++ safeAppendString rest
    else
      (b :: rest).take (decodeRune (b :: rest)).2 ++
        safeAppendString (rest.drop ((decodeRune (b :: rest)).2 - 1))
termination_by s => s.length
decreasing_by
  · simp
  · simp
  · simp only [List.length_cons, List.length_drop]
    omega

/-- UTF-8 normalization of a byte string: valid sequences are kept, each
byte at which `utf8.DecodeRune` fails is replaced by the UTF-8 encoding
`EF BF BD` of U+FFFD. This is the claim-side description of what the
escaped output is supposed to parse back to. -/
def utf8Sanitize : List Nat → List Nat
  | [] => []
  | b :: rest =>
    if b < 0x80 then b :: utf8Sanitize rest
    else if (decodeRune (b :: rest)).1 = 0xFFFD ∧ (decodeRune (b :: rest)).2 = 1 then
      [0xEF, 0xBF, 0xBD] ++ utf8Sanitize rest
    else
      (b :: rest).take (decodeRune (b :: rest)).2 ++
        utf8Sanitize (rest.drop ((decodeRune (b :: rest)).2 - 1))
termination_by s => s.length
decreasing_by
  · simp
  · simp
  · simp only [List.length_cons, List.length_drop]
    omega

/-- Validity of a byte string as UTF-8, per the same decoder. -/
def utf8Valid : List Nat → Bool
  | [] => true
  | b :: rest =>
    if b < 0x80 then utf8Valid rest
    else if (decodeRune (b :: rest)).1 = 0xFFFD ∧ (decodeRune (b :: rest)).2 = 1 then
      false
    else
      utf8Valid (rest.drop ((decodeRune (b :: rest)).2 - 1))
termination_by s => s.length
decreasing_by
  · simp
  · simp only [List.length_cons, List.length_drop]
    omega

/-! ## Model of a compliant JSON string-content parser -/

/-- Value of a hexadecimal digit byte, or `none`. -/
def hexVal (c : Nat) : Option Nat :=
  if 48 ≤ c ∧ c ≤ 57 then some (c - 48)
  else if 97 ≤ c ∧ c ≤ 102 then some (c - 87)
  else if 65 ≤ c ∧ c ≤ 70 then some (c - 55)
  else none

/-- Standard UTF-8 encoding of a code point. -/
def utf8Encode (cp : Nat) : List Nat :=
  if cp < 0x80 then [cp]
  else if cp < 0x800 then [0xC0 + cp / 64, 0x80 + cp % 64]
  else if cp < 0x10000 then [0xE0 + cp / 4096, 0x80 + cp / 64 % 64, 0x80 + cp % 64]
  else [0xF0 + cp / 262144, 0x80 + cp / 4096 % 64, 0x80 + cp / 64 % 64, 0x80 + cp % 64]

/-- Parse four hexadecimal digit bytes, returning their value and the rest. -/
def jsonHex4 : List Nat → Option (Nat × List Nat)
  | h1 :: h2 :: h3 :: h4 :: rest =>
    match hexVal h1, hexVal h2, hexVal h3, hexVal h4 with
    | some x1, some x2, some x3, some x4 => some (x1 * 4096 + x2 * 256 + x3 * 16 + x4, rest)
    | _, _, _, _ => none
  | _ => none

/-- Parse the low half of a surrogate pair: a second `\uXXXX` escape whose
value is a low surrogate, combined with the pending high surrogate `cp`. -/
def jsonStepPair (cp : Nat) : List Nat → Option (List Nat × List Nat)
  | e1 :: e2 :: rest4 =>
    if e1 = 92 ∧ e2 = 117 then
      match jsonHex4 rest4 with
      | none => none
      | some (cp2, rest5) =>
        if 0xDC00 ≤ cp2 ∧ cp2 < 0xE000 then
          some (utf8Encode (0x10000 + (cp - 0xD800) * 1024 + (cp2 - 0xDC00)), rest5)
        else none
    else none
  | _ => none

/-- Parse the remainder of a `\uXXXX` escape (after the `\u`), handling
surrogate pairs. -/
def jsonStepU (rest2 : List Nat) : Option (List Nat × List Nat) :=
  match jsonHex4 rest2 with
  | none => none
  | some (cp, rest3) =>
    if cp < 0xD800 ∨ 0xE000 ≤ cp then some (utf8Encode cp, rest3)
    else if cp < 0xDC00 then jsonStepPair cp rest3
    else none

/-- Parse the remainder of an escape sequence (after the backslash). -/
def jsonStepEsc : List Nat → Option (List Nat × List Nat)
  | [] => none
  | c :: rest2 =>
    if c = 34 then some ([34], rest2)
    else if c = 92 then some ([92], rest2)
    else if c = 47 then some ([47], rest2)
    else if c = 98 then some ([8], rest2)
    else if c = 102 then some ([12], rest2)
    else if c = 110 then some ([10], rest2)
    else if c = 114 then some ([13], rest2)
    else if c = 116 then some ([9], rest2)
    else if c = 117 then jsonStepU rest2
    else none

/-- One step of a compliant JSON string-content parser (RFC 8259 §7): consume
one escape sequence or one verbatim byte, returning the decoded UTF-8 bytes
and the remaining input. An unescaped quote or control byte, or a malformed
escape, is a parse error. -/
def jsonStep : List Nat → Option (List Nat × List Nat)
  | [] => none
  | b :: rest =>
    if b = 92 then jsonStepEsc rest
    else if b = 34 ∨ b < 32 then none
    else some ([b], rest)

/-- Parsing four hex digits consumes exactly four bytes. -/
theorem jsonHex4_length (s : List Nat) (cp : Nat) (r : List Nat)
    (h : jsonHex4 s = some (cp, r)) : r.length + 4 = s.length := by
  rcases s with _ | ⟨a1, _ | ⟨a2, _ | ⟨a3, _ | ⟨a4, rest⟩⟩⟩⟩ <;>
    simp [jsonHex4] at h
  cases hv1 : hexVal a1 <;> cases hv2 : hexVal a2 <;> cases hv3 : hexVal a3 <;>
    cases hv4 : hexVal a4 <;> simp [hv1, hv2, hv3, hv4] at h
  simp [h.2]

/-- A successful surrogate-pair continuation strictly consumes input. -/
theorem jsonStepPair_length (cp : Nat) (s out r : List Nat)
    (h : jsonStepPair cp s = some (out, r)) : r.length < s.length := by
  rcases s with _ | ⟨e1, _ | ⟨e2, rest4⟩⟩ <;> simp [jsonStepPair] at h
  obtain ⟨-, h⟩ := h
  cases hh : jsonHex4 rest4 with
  | none => rw [hh] at h; simp at h
  | some v =>
    obtain ⟨cp2, rest5⟩ := v
    rw [hh] at h
    have hl := jsonHex4_length rest4 cp2 rest5 hh
    simp at h
    obtain ⟨-, -, h2⟩ := h
    subst h2
    simp
    omega

/-- A successful `\uXXXX` continuation strictly consumes input. -/
theorem jsonStepU_length (s out r : List Nat)
    (h : jsonStepU s = some (out, r)) : r.length < s.length := by
  unfold jsonStepU at h
  cases hh : jsonHex4 s with
  | none => rw [hh] at h; simp at h
  | some v =>
    obtain ⟨cp, rest3⟩ := v
    rw [hh] at h
    have hl := jsonHex4_length s cp rest3 hh
    simp at h
    split_ifs at h with hs1 hs2
    · simp at h
      obtain ⟨-, h2⟩ := h
      subst h2
      omega
    · have := jsonStepPair_length cp rest3 out r h
      omega

/-- A successful escape continuation strictly consumes input. -/
theorem jsonStepEsc_length (s out r : List Nat)
    (h : jsonStepEsc s = some (out, r)) : r.length < s.length := by
  rcases s with _ | ⟨c, rest2⟩
  · simp [jsonStepEsc] at h
  · simp only [jsonStepEsc] at h
    split_ifs at h with h1 h2 h3 h4 h5 h6 h7 h8 h9
    any_goals
      simp at h
      obtain ⟨-, h2a⟩ := h
      subst h2a
      simp
    · have := jsonStepU_length rest2 out r h
      simp
      omega

/-- A successful parsing step strictly consumes input. -/
theorem jsonStep_length (s : List Nat) (out rest2 : List Nat)
    (h : jsonStep s = some (out, rest2)) : rest2.length < s.length := by
  rcases s with _ | ⟨b, r⟩
  · simp [jsonStep] at h
  · simp only [jsonStep] at h
    split_ifs at h with h1 h2
    · have := jsonStepEsc_length r out rest2 h
      simp
      omega
    · simp at h
      obtain ⟨-, h2a⟩ := h
      subst h2a
      simp

/-- Compliant JSON parser for the contents of a double-quoted JSON string,
producing the UTF-8 bytes of the parsed string, or `none` on a parse error. -/
def jsonUnescape : List Nat → Option (List Nat)
  | [] => some []
  | b :: rest =>
    match h : jsonStep (b :: rest) with
    | none => none
    | some (out, rest2) => (jsonUnescape rest2).map (fun l => out ++ l)
termination_by s => s.length
decreasing_by exact jsonStep_length _ _ _ h

/-! ## Round-trip of the escaper through the JSON parser -/

/-- Unfolding of the parser by one successful step. -/
theorem jsonUnescape_step (b : Nat) (rest out rest2 : List Nat)
    (h : jsonStep (b :: rest) = some (out, rest2)) :
    jsonUnescape (b :: rest) = (jsonUnescape rest2).map (fun l => out ++ l) := by
  rw [jsonUnescape]
  split
  · next heq =>
    rw [h] at heq
    simp at heq
  · next o2 r2 heq =>
    rw [h] at heq
    simp at heq
    rw [heq.1, heq.2]

/-- Unfolding of the parser by one successful step, chunk form. -/
theorem jsonUnescape_chunk (x t out : List Nat) (hx : x ≠ [])
    (h : jsonStep (x ++ t) = some (out, t)) :
    jsonUnescape (x ++ t) = (jsonUnescape t).map (fun l => out ++ l) := by
  rcases x with _ | ⟨b, xs⟩
  · exact absurd rfl hx
  · rw [List.cons_append]
    exact jsonUnescape_step b (xs ++ t) out t (by rwa [List.cons_append] at h)

/-- A printable non-special byte is consumed verbatim by the parser. -/
theorem jsonStep_plain (b : Nat) (t : List Nat) (h1 : 0x20 ≤ b) (h2 : b ≠ 34)
    (h3 : b ≠ 92) : jsonStep (b :: t) = some ([b], t) := by
  simp only [jsonStep]
  rw [if_neg h3, if_neg (by omega)]

/-- Parsing a run of plain (printable, non-quote, non-backslash) bytes copies
them verbatim in front of whatever the remainder parses to. -/
theorem jsonUnescape_plain (chunk t : List Nat)
    (h : ∀ b ∈ chunk, 0x20 ≤ b ∧ b ≠ 34 ∧ b ≠ 92) :
    jsonUnescape (chunk ++ t) = (jsonUnescape t).map (fun l => chunk ++ l) := by
  induction chunk with
  | nil => cases h2 : jsonUnescape t <;> simp [h2]
  | cons b bs ih =>
    have hb := h b (by simp)
    rw [List.cons_append,
      jsonUnescape_step b (bs ++ t) [b] (bs ++ t) (jsonStep_plain b _ hb.1 hb.2.1 hb.2.2)]
    rw [ih (fun x hx => h x (by simp [hx]))]
    cases h2 : jsonUnescape t <;> simp [h2]

/-- The escape emitted by `tryAddRuneSelf` parses back to exactly its byte. -/
theorem jsonStep_runeSelf (b : Nat) (t : List Nat) (hb : b < 0x80) :
    jsonStep (tryAddRuneSelf b ++ t) = some ([b], t) := by
  unfold tryAddRuneSelf
  split_ifs with h1 h2 h3 h4 h5
  · rw [List.cons_append, List.nil_append]
    exact jsonStep_plain b t h1.1 h1.2.2 h1.2.1
  · rcases h2 with rfl | rfl <;> simp [jsonStep, jsonStepEsc]
  · subst h3
    simp [jsonStep, jsonStepEsc]
  · subst h4
    simp [jsonStep, jsonStepEsc]
  · subst h5
    simp [jsonStep, jsonStepEsc]
  · have hb32 : b < 32 := by omega
    interval_cases b <;>
      simp_all [jsonStep, jsonStepEsc, jsonStepU, jsonHex4, hexVal, hexDigit, utf8Encode]

/-- The escaped replacement character parses back to the UTF-8 encoding
of U+FFFD. -/
theorem jsonStep_runeError (t : List Nat) :
    jsonStep (runeErrorEsc ++ t) = some ([0xEF, 0xBF, 0xBD], t) := by
  simp [runeErrorEsc, jsonStep, jsonStepEsc, jsonStepU, jsonHex4, hexVal, utf8Encode]

/-- When the decoder does not report an invalid byte at a non-ASCII position,
it consumed a well-formed multi-byte sequence: the size is between 2 and the
available length, and every consumed byte is at least `0x80`. -/
theorem decodeRune_chunk (b0 : Nat) (rest : List Nat) (h : ¬ b0 < 0x80)
    (h2 : ¬ ((decodeRune (b0 :: rest)).1 = 0xFFFD ∧ (decodeRune (b0 :: rest)).2 = 1)) :
    2 ≤ (decodeRune (b0 :: rest)).2 ∧ (decodeRune (b0 :: rest)).2 - 1 ≤ rest.length ∧
      ∀ x ∈ (b0 :: rest).take (decodeRune (b0 :: rest)).2, 0x80 ≤ x := by
  by_cases hc2 : 0xC2 ≤ b0 ∧ b0 ≤ 0xDF
  · rcases rest with _ | ⟨b1, rest1⟩
    · exact absurd (by simp [decodeRune, if_neg h, hc2]) h2
    · by_cases hb1 : 0x80 ≤ b1 ∧ b1 ≤ 0xBF
      · have hd : decodeRune (b0 :: b1 :: rest1) = ((b0 - 0xC0) * 64 + (b1 - 0x80), 2) := by
          simp [decodeRune, if_neg h, hc2, hb1]
        rw [hd]
        refine ⟨by norm_num, by simp, ?_⟩
        intro x hx
        simp [List.take_succ_cons] at hx
        rcases hx with rfl | rfl <;> omega
      · exact absurd (by simp [decodeRune, if_neg h, hc2, hb1]) h2
  · by_cases hc3 : 0xE0 ≤ b0 ∧ b0 ≤ 0xEF
    · rcases rest with _ | ⟨b1, _ | ⟨b2, rest2⟩⟩
      · exact absurd (by simp [decodeRune, if_neg h, hc2, hc3]) h2
      · exact absurd (by simp [decodeRune, if_neg h, hc2, hc3]) h2
      · by_cases hacc : ((b0 = 0xE0 ∧ 0xA0 ≤ b1 ∧ b1 ≤ 0xBF) ∨
            (b0 = 0xED ∧ 0x80 ≤ b1 ∧ b1 ≤ 0x9F) ∨
            (b0 ≠ 0xE0 ∧ b0 ≠ 0xED ∧ 0x80 ≤ b1 ∧ b1 ≤ 0xBF)) ∧
            (0x80 ≤ b2 ∧ b2 ≤ 0xBF)
        · have hd : decodeRune (b0 :: b1 :: b2 :: rest2) =
              ((b0 - 0xE0) * 4096 + (b1 - 0x80) * 64 + (b2 - 0x80), 3) := by
            simp only [decodeRune, if_neg h, if_neg hc2, if_pos hc3]
            rw [if_pos hacc]
          rw [hd]
          refine ⟨by norm_num, by simp, ?_⟩
          intro x hx
          simp [List.take_succ_cons] at hx
          obtain ⟨hl, hr⟩ := hacc
          rcases hx with rfl | rfl | rfl
          · omega
          · rcases hl with ⟨_, hl2, -⟩ | ⟨_, hl2, -⟩ | ⟨_, _, hl2, -⟩ <;> omega
          · omega
        · have hd : decodeRune (b0 :: b1 :: b2 :: rest2) = (0xFFFD, 1) := by
            simp only [decodeRune, if_neg h, if_neg hc2, if_pos hc3]
            rw [if_neg hacc]
          exact absurd (by rw [hd]; exact ⟨rfl, rfl⟩) h2
    · by_cases hc4 : 0xF0 ≤ b0 ∧ b0 ≤ 0xF4
      · rcases rest with _ | ⟨b1, _ | ⟨b2, _ | ⟨b3, rest3⟩⟩⟩
        · exact absurd (by simp [decodeRune, if_neg h, hc2, hc3, hc4]) h2
        · exact absurd (by simp [decodeRune, if_neg h, hc2, hc3, hc4]) h2
        · exact absurd (by simp [decodeRune, if_neg h, hc2, hc3, hc4]) h2
        · by_cases hacc : ((b0 = 0xF0 ∧ 0x90 ≤ b1 ∧ b1 ≤ 0xBF) ∨
              (b0 = 0xF4 ∧ 0x80 ≤ b1 ∧ b1 ≤ 0x8F) ∨
              (b0 ≠ 0xF0 ∧ b0 ≠ 0xF4 ∧ 0x80 ≤ b1 ∧ b1 ≤ 0xBF)) ∧
              (0x80 ≤ b2 ∧ b2 ≤ 0xBF) ∧ (0x80 ≤ b3 ∧ b3 ≤ 0xBF)
          · have hd : decodeRune (b0 :: b1 :: b2 :: b3 :: rest3) =
                ((b0 - 0xF0) * 262144 + (b1 - 0x80) * 4096 + (b2 - 0x80) * 64 + (b3 - 0x80), 4) := by
              simp only [decodeRune, if_neg h, if_neg hc2, if_neg hc3, if_pos hc4]
              rw [if_pos hacc]
            rw [hd]
            refine ⟨by norm_num, by simp, ?_⟩
            intro x hx
            simp [List.take_succ_cons] at hx
            obtain ⟨hl, hr1, hr2⟩ := hacc
            rcases hx with rfl | rfl | rfl | rfl
            · omega
            · rcases hl with ⟨_, hl2, -⟩ | ⟨_, hl2, -⟩ | ⟨_, _, hl2, -⟩ <;> omega
            · omega
            · omega
          · have hd : decodeRune (b0 :: b1 :: b2 :: b3 :: rest3) = (0xFFFD, 1) := by
              simp only [decodeRune, if_neg h, if_neg hc2, if_neg hc3, if_pos hc4]
              rw [if_neg hacc]
            exact absurd (by rw [hd]; exact ⟨rfl, rfl⟩) h2
      · exact absurd (by simp [decodeRune, if_neg h, hc2, hc3, hc4]) h2

/-- The escaper's output parses back, through the JSON string parser, to the
UTF-8 sanitization of its input. -/
theorem safeAppend_roundtrip (s : List Nat) :
    jsonUnescape (safeAppendString s) = some (utf8Sanitize s) := by
  induction s using safeAppendString.induct with
  | case1 =>
    rw [safeAppendString, utf8Sanitize, jsonUnescape]
  | case2 b rest hb ih =>
    rw [safeAppendString, if_pos hb, utf8Sanitize, if_pos hb]
    rw [jsonUnescape_chunk _ _ [b] (by simp [tryAddRuneSelf]; split_ifs <;> simp)
      (jsonStep_runeSelf b _ hb), ih]
    rfl
  | case3 b rest hb h2 ih =>
    rw [safeAppendString, if_neg hb, if_pos h2, utf8Sanitize, if_neg hb, if_pos h2]
    rw [jsonUnescape_chunk _ _ [0xEF, 0xBF, 0xBD] (by simp [runeErrorEsc]) (jsonStep_runeError _),
      ih]
    rfl
  | case4 b rest hb h2 ih =>
    rw [safeAppendString, if_neg hb, if_neg h2, utf8Sanitize, if_neg hb, if_neg h2]
    obtain ⟨hs2, hlen, hmem⟩ := decodeRune_chunk b rest hb h2
    rw [jsonUnescape_plain _ _ (fun x hx => by
      have := hmem x hx
      exact ⟨by omega, by omega, by omega⟩)]
    rw [ih]
    rfl

/-- On valid UTF-8 input the sanitizer is the identity. -/
theorem utf8Sanitize_valid (s : List Nat) (h : utf8Valid s = true) : utf8Sanitize s = s := by
  induction s using safeAppendString.induct with
  | case1 => rw [utf8Sanitize]
  | case2 b rest hb ih =>
    rw [utf8Valid, if_pos hb] at h
    rw [utf8Sanitize, if_pos hb, ih h]
  | case3 b rest hb h2 ih =>
    rw [utf8Valid, if_neg hb, if_pos h2] at h
    exact absurd h (by simp)
  | case4 b rest hb h2 ih =>
    rw [utf8Valid, if_neg hb, if_neg h2] at h
    rw [utf8Sanitize, if_neg hb, if_neg h2, ih h]
    obtain ⟨hs2, hlen, -⟩ := decodeRune_chunk b rest hb h2
    have hdrop : rest.drop ((decodeRune (b :: rest)).2 - 1) =
        (b :: rest).drop (decodeRune (b :: rest)).2 := by
      have hsize : (decodeRune (b :: rest)).2 = ((decodeRune (b :: rest)).2 - 1) + 1 := by omega
      conv_rhs => rw [hsize]
      rw [List.drop_succ_cons]
    rw [hdrop, List.take_append_drop]

/-- C3: for every input byte string, the JSON escaper's output, wrapped in
quotes and parsed by a compliant JSON parser, yields the original string,
with each byte at which UTF-8 decoding fails replaced by the Unicode
replacement character U+FFFD (the second conjunct specializes this to valid
UTF-8 input, where the parse result is exactly the original). -/
theorem c3_escaper_roundtrip (s : List Nat) :
    jsonUnescape (safeAppendString s) = some (utf8Sanitize s) ∧
      (utf8Valid s = true → utf8Sanitize s = s) :=
  ⟨safeAppend_roundtrip s, utf8Sanitize_valid s⟩

/-- Witness for C3 at the concrete input `h é <invalid 0xFF>`. -/
theorem c3_escaper_roundtrip_witness :
    jsonUnescape (safeAppendString [104, 0xC3, 0xA9, 0xFF]) =
        some (utf8Sanitize [104, 0xC3, 0xA9, 0xFF]) ∧
      utf8Sanitize [104, 0xC3, 0xA9] = [104, 0xC3, 0xA9] :=
  ⟨(c3_escaper_roundtrip [104, 0xC3, 0xA9, 0xFF]).1,
   (c3_escaper_roundtrip [104, 0xC3, 0xA9]).2 (by simp [utf8Valid, decodeRune])⟩

/-- C4: the escaping rule, byte for byte: printable non-special ASCII bytes
are copied verbatim; backslash, quote, newline, carriage return and tab get
their two-character escapes; all other control bytes below 0x20 become
`\u00XX`; well-formed multi-byte UTF-8 sequences are copied verbatim; each
byte at which UTF-8 decoding fails becomes the six-byte escape `�`. -/
theorem c4_escape_rule (s : List Nat) (b b1 b2 b3 : Nat) :
    (0x20 ≤ b → b < 0x80 → b ≠ 92 → b ≠ 34 →
      safeAppendString (b :: s) = b :: safeAppendString s) ∧
    (safeAppendString (92 :: s) = 92 :: 92 :: safeAppendString s) ∧
    (safeAppendString (34 :: s) = 92 :: 34 :: safeAppendString s) ∧
    (safeAppendString (10 :: s) = 92 :: 110 :: safeAppendString s) ∧
    (safeAppendString (13 :: s) = 92 :: 114 :: safeAppendString s) ∧
    (safeAppendString (9 :: s) = 92 :: 116 :: safeAppendString s) ∧
    (b < 0x20 → b ≠ 10 → b ≠ 13 → b ≠ 9 →
      safeAppendString (b :: s) =
        92 :: 117 :: 48 :: 48 :: hexDigit (b / 16) :: hexDigit (b % 16) :: safeAppendString s) ∧
    (0xC2 ≤ b → b ≤ 0xDF → 0x80 ≤ b1 → b1 ≤ 0xBF →
      safeAppendString (b :: b1 :: s) = b :: b1 :: safeAppendString s) ∧
    (0xE0 ≤ b → b ≤ 0xEF →
      ((b = 0xE0 ∧ 0xA0 ≤ b1 ∧ b1 ≤ 0xBF) ∨ (b = 0xED ∧ 0x80 ≤ b1 ∧ b1 ≤ 0x9F) ∨
        (b ≠ 0xE0 ∧ b ≠ 0xED ∧ 0x80 ≤ b1 ∧ b1 ≤ 0xBF)) →
      0x80 ≤ b2 → b2 ≤ 0xBF →
      safeAppendString (b :: b1 :: b2 :: s) = b :: b1 :: b2 :: safeAppendString s) ∧
    (0xF0 ≤ b → b ≤ 0xF4 →
      ((b = 0xF0 ∧ 0x90 ≤ b1 ∧ b1 ≤ 0xBF) ∨ (b = 0xF4 ∧ 0x80 ≤ b1 ∧ b1 ≤ 0x8F) ∨
        (b ≠ 0xF0 ∧ b ≠ 0xF4 ∧ 0x80 ≤ b1 ∧ b1 ≤ 0xBF)) →
      0x80 ≤ b2 → b2 ≤ 0xBF → 0x80 ≤ b3 → b3 ≤ 0xBF →
      safeAppendString (b :: b1 :: b2 :: b3 :: s) = b :: b1 :: b2 :: b3 :: safeAppendString s) ∧
    (0x80 ≤ b → decodeRune (b :: s) = (0xFFFD, 1) →
      safeAppendString (b :: s) = runeErrorEsc ++ safeAppendString s) := by
  refine ⟨?_, ?_, ?_, ?_, ?_, ?_, ?_, ?_, ?_, ?_, ?_⟩
  · intro hge hlt hne92 hne34
    rw [safeAppendString, if_pos hlt]
    unfold tryAddRuneSelf
    rw [if_pos ⟨hge, hne92, hne34⟩]
    rfl
  · rw [safeAppendString, if_pos (by norm_num)]
    simp [tryAddRuneSelf]
  · rw [safeAppendString, if_pos (by norm_num)]
    simp [tryAddRuneSelf]
  · rw [safeAppendString, if_pos (by norm_num)]
    simp [tryAddRuneSelf]
  · rw [safeAppendString, if_pos (by norm_num)]
    simp [tryAddRuneSelf]
  · rw [safeAppendString, if_pos (by norm_num)]
    simp [tryAddRuneSelf]
  · intro hlt h10 h13 h9
    rw [safeAppendString, if_pos (by omega)]
    unfold tryAddRuneSelf
    rw [if_neg (by omega), if_neg (by omega), if_neg h10, if_neg h13, if_neg h9]
    rfl
  · intro hc1 hc2 hb1l hb1h
    have hd : decodeRune (b :: b1 :: s) = ((b - 0xC0) * 64 + (b1 - 0x80), 2) := by
      simp [decodeRune, if_neg (show ¬ b < 0x80 by omega), show 0xC2 ≤ b ∧ b ≤ 0xDF from ⟨hc1, hc2⟩,
        show 0x80 ≤ b1 ∧ b1 ≤ 0xBF from ⟨hb1l, hb1h⟩]
    rw [safeAppendString, if_neg (by omega), if_neg (by rw [hd]; simp)]
    rw [hd]
    simp
  · intro hc1 hc2 hacc hb2l hb2h
    have hd : decodeRune (b :: b1 :: b2 :: s) =
        ((b - 0xE0) * 4096 + (b1 - 0x80) * 64 + (b2 - 0x80), 3) := by
      simp only [decodeRune, if_neg (show ¬ b < 0x80 by omega),
        if_neg (show ¬ (0xC2 ≤ b ∧ b ≤ 0xDF) by omega),
        if_pos (show 0xE0 ≤ b ∧ b ≤ 0xEF from ⟨hc1, hc2⟩)]
      rw [if_pos ⟨hacc, hb2l, hb2h⟩]
    rw [safeAppendString, if_neg (by omega), if_neg (by rw [hd]; simp)]
    rw [hd]
    simp
  · intro hc1 hc2 hacc hb2l hb2h hb3l hb3h
    have hd : decodeRune (b :: b1 :: b2 :: b3 :: s) =
        ((b - 0xF0) * 262144 + (b1 - 0x80) * 4096 + (b2 - 0x80) * 64 + (b3 - 0x80), 4) := by
      simp only [decodeRune, if_neg (show ¬ b < 0x80 by omega),
        if_neg (show ¬ (0xC2 ≤ b ∧ b ≤ 0xDF) by omega),
        if_neg (show ¬ (0xE0 ≤ b ∧ b ≤ 0xEF) by omega),
        if_pos (show 0xF0 ≤ b ∧ b ≤ 0xF4 from ⟨hc1, hc2⟩)]
      rw [if_pos ⟨hacc, ⟨hb2l, hb2h⟩, hb3l, hb3h⟩]
    rw [safeAppendString, if_neg (by omega), if_neg (by rw [hd]; simp)]
    rw [hd]
    simp
  · intro hge hdec
    rw [safeAppendString, if_neg (by omega), if_pos (by rw [hdec]; exact ⟨rfl, rfl⟩)]

/-- Witness for C4: one concrete instance of each guarded conjunct. -/
theorem c4_escape_rule_witness :
    safeAppendString [65] = 65 :: safeAppendString [] ∧
    safeAppendString [7] =
      92 :: 117 :: 48 :: 48 :: hexDigit (7 / 16) :: hexDigit (7 % 16) :: safeAppendString [] ∧
    safeAppendString [0xC3, 0xA9] = 0xC3 :: 0xA9 :: safeAppendString [] ∧
    safeAppendString [0xE2, 0x82, 0xAC] = 0xE2 :: 0x82 :: 0xAC :: safeAppendString [] ∧
    safeAppendString [0xF0, 0x9F, 0x98, 0x80] =
      0xF0 :: 0x9F :: 0x98 :: 0x80 :: safeAppendString [] ∧
    safeAppendString [0x80] = runeErrorEsc ++ safeAppendString [] :=
  ⟨(c4_escape_rule [] 65 0 0 0).1 (by norm_num) (by norm_num) (by norm_num) (by norm_num),
   (c4_escape_rule [] 7 0 0 0).2.2.2.2.2.2.1 (by norm_num) (by norm_num) (by norm_num)
     (by norm_num),
   (c4_escape_rule [] 0xC3 0xA9 0 0).2.2.2.2.2.2.2.1 (by norm_num) (by norm_num) (by norm_num)
     (by norm_num),
   (c4_escape_rule [] 0xE2 0x82 0xAC 0).2.2.2.2.2.2.2.2.1 (by norm_num) (by norm_num)
     (by norm_num) (by norm_num) (by norm_num),
   (c4_escape_rule [] 0xF0 0x9F 0x98 0x80).2.2.2.2.2.2.2.2.2.1 (by norm_num) (by norm_num)
     (by norm_num) (by norm_num) (by norm_num) (by norm_num) (by norm_num),
   (c4_escape_rule [] 0x80 0 0 0).2.2.2.2.2.2.2.2.2.2 (by norm_num) (by simp [decodeRune])⟩

/-! ## Models of external collaborators -/

/-- UTF-8 bytes of a Lean string (model of Go's byte view of a string). -/
def utf8Bytes (s : String) : List Nat :=
  s.data.foldr (fun c acc => utf8Encode c.toNat ++ acc) []

/-- Model of Go `time.Time`: an absolute instant (Unix nanoseconds) together
with the attached location's zone offset in seconds. -/
structure GoTime where
  nanos : Int
  offset : Int
deriving DecidableEq

/-- Model of `time.Time.UTC`: same instant, zero offset. -/
def GoTime.utc (t : GoTime) : GoTime := ⟨t.nanos, 0⟩

/-- Model of `time.Time.Format` (external stdlib): the output is determined by
the layout string, the wall-clock reading (instant plus offset) and the zone
offset, which is exactly the information a layout such as RFC 3339 renders. -/
def goTimeFormat (t : GoTime) (layout : String) : String :=
  layout ++ "|" ++ toString (t.nanos + t.offset * 1000000000) ++ "|" ++ toString t.offset

/-- The `time.RFC3339` layout constant. -/
def rfc3339 : String := "2006-01-02T15:04:05Z07:00"

/-- Model of Go `time.Duration.String` (external stdlib), abstracted as the
nanosecond count with a unit marker; no claim depends on its exact shape. -/
def durString (d : Int) : String := toString d ++ "ns"

/-- Model of `zapcore.EncoderConfig` as the encoders consume it: an optional
duration-formatting override (`EncodeDuration`) and an optional
time-formatting override (`EncodeTime`), shared by reference between an
encoder and its clones. An override is modelled as a pure function from the
value to the text it appends through the primitive appender. -/
structure Config where
  encodeDuration : Option (Int → String) := none
  encodeTime : Option (GoTime → String) := none

/-- Model of a Go `float64` as the encoders observe it: NaN, the two
infinities, or a finite value carrying its `strconv.FormatFloat` rendering. -/
inductive F64 where
  | nan
  | pinf
  | ninf
  | finite (repr : String)
deriving DecidableEq

/-- Rendering of a float by the shared buffer appender (`buffer.AppendFloat`,
external): `strconv` renders the special values with these exact tokens. -/
def f64String : F64 → String
  | .nan => "NaN"
  | .pinf => "+Inf"
  | .ninf => "-Inf"
  | .finite r => r

/-- Model of a value handed to the reflected-append path: `encoding/json`
either serializes it to bytes or fails with an error message. -/
inductive Reflected where
  | marshalable (json : List Nat)
  | unmarshalable (msg : String)
deriving DecidableEq

/-- Model of `encoding/json.Marshal` on a `Reflected` value. -/
def jsonMarshal : Reflected → Except String (List Nat)
  | .marshalable j => .ok j
  | .unmarshalable m => .error m

/-- The standard base64 alphabet (model of `encoding/base64.StdEncoding`). -/
def b64char (n : Nat) : Char :=
  "ABCDEFGHIJKLMNOPQRSTUVWXYZabcdefghijklmnopqrstuvwxyz0123456789+/".data.getD n 'A'

/-- Model of `encoding/base64.StdEncoding.EncodeToString`. -/
def base64Encode : List Nat → String
  | [] => ""
  | [a] => String.mk [b64char (a / 4), b64char (a % 4 * 16), '=', '=']
  | [a, b] => String.mk [b64char (a / 4), b64char (a % 4 * 16 + b / 16), b64char (b % 16 * 4), '=']
  | a :: b :: c :: rest =>
    String.mk [b64char (a / 4), b64char (a % 4 * 16 + b / 16), b64char (b % 16 * 4 + c / 64),
      b64char (c % 64)] ++ base64Encode rest

/-- Values produced by a user marshaler through the array-marshaling protocol:
the marshaler calls one append method per element. This models the external
`zapcore.ArrayMarshaler` callback as the sequence of appends it performs. -/
inductive BVal where
  | bstr (s : List Nat)
  | bint (n : Int)
  | bbool (b : Bool)
  | bbytes (s : List Nat)
deriving DecidableEq

/-! ## The JSON-shaped object encoder (`objectEncoder`, byte buffers) -/

namespace objectEncoder

/-- Element separator of `objectEncoder.addElementSeparator`: looks at the
last byte of the buffer; on an empty buffer, or after `{`, `[`, `:`, `,` or
space, no comma is inserted, otherwise a comma is appended. -/
def addElementSeparator (buf : List Nat) : List Nat :=
  match buf.getLast? with
  | none => buf
  | some c => if c = 123 ∨ c = 91 ∨ c = 58 ∨ c = 44 ∨ c = 32 then buf else buf ++ [44]

/-- `objectEncoder.AppendString`: a double-quoted, JSON-escaped string; note
the source inserts no element separator here. -/
def AppendString (buf v : List Nat) : List Nat :=
  buf ++ [34] ++ safeAppendString v ++ [34]

/-- `objectEncoder.AppendByteString`: element separator, then a double-quoted,
JSON-escaped byte string. -/
def AppendByteString (buf v : List Nat) : List Nat :=
  addElementSeparator buf ++ [34] ++ safeAppendString v ++ [34]

/-- `objectEncoder.addKey`: element separator, the quoted escaped key, and a
colon. -/
def addKey (buf key : List Nat) : List Nat :=
  AppendString (addElementSeparator buf) key ++ [58]

/-- `objectEncoder.AppendBool` via `buffer.AppendBool`. -/
def AppendBool (buf : List Nat) (v : Bool) : List Nat :=
  buf ++ utf8Bytes (if v then "true" else "false")

/-- `objectEncoder.AppendInt64` via `buffer.AppendInt`. -/
def AppendInt64 (buf : List Nat) (v : Int) : List Nat := buf ++ utf8Bytes (toString v)

/-- `objectEncoder.AppendUint64` via `buffer.AppendUint`. -/
def AppendUint64 (buf : List Nat) (v : Nat) : List Nat := buf ++ utf8Bytes (toString v)

/-- `objectEncoder.AppendFloat64` via `buffer.AppendFloat`. -/
def AppendFloat64 (buf : List Nat) (v : F64) : List Nat := buf ++ utf8Bytes (f64String v)

/-- One element appended by an array marshaler through the object encoder's
append methods (strings get no separator, byte strings do). -/
def appendBVal (buf : List Nat) : BVal → List Nat
  | .bstr s => AppendString buf s
  | .bint n => AppendInt64 buf n
  | .bbool b => AppendBool buf b
  | .bbytes s => AppendByteString buf s

/-- `objectEncoder.AppendArray`: `[`, the marshaler's appends, `]`. -/
def AppendArray (buf : List Nat) (xs : List BVal) : List Nat :=
  (xs.foldl appendBVal (buf ++ [91])) ++ [93]

/-- `objectEncoder.AddString`: key, then the quoted escaped value. -/
def AddString (buf key v : List Nat) : List Nat := AppendString (addKey buf key) v

/-- One key/value pair added by an object marshaler through the object
encoder's keyed add methods. -/
def addBVal (buf : List Nat) (kv : List Nat × BVal) : List Nat :=
  match kv.2 with
  | .bstr s => AddString buf kv.1 s
  | .bint n => AppendInt64 (addKey buf kv.1) n
  | .bbool b => AppendBool (addKey buf kv.1) b
  | .bbytes s => AddString buf kv.1 s

/-- `objectEncoder.AppendObject`: `{`, the marshaler's keyed adds, `}`. -/
def AppendObject (buf : List Nat) (kvs : List (List Nat × BVal)) : List Nat :=
  (kvs.foldl addBVal (buf ++ [123])) ++ [125]

/-- `objectEncoder.AddArray`: key, then the array (the returned error is the
unconditional `nil` of `AppendArray`). -/
def AddArray (buf key : List Nat) (xs : List BVal) : List Nat × Option String :=
  (AppendArray (addKey buf key) xs, none)

/-- `objectEncoder.AddObject`. -/
def AddObject (buf key : List Nat) (kvs : List (List Nat × BVal)) : List Nat × Option String :=
  (AppendObject (addKey buf key) kvs, none)

/-- `objectEncoder.AddReflected`: marshal first; on failure return the error
with the buffer untouched (the key has not been added yet); on success add
the key and append the raw serialized bytes. -/
def AddReflected (buf key : List Nat) (v : Reflected) : List Nat × Option String :=
  match jsonMarshal v with
  | .error e => (buf, some e)
  | .ok bs => (addKey buf key ++ bs, none)

/-- `objectEncoder.AppendReflected`: marshal first; on failure return the
error with the buffer untouched; on success append the raw bytes. -/
def AppendReflected (buf : List Nat) (v : Reflected) : List Nat × Option String :=
  match jsonMarshal v with
  | .error e => (buf, some e)
  | .ok bs => (buf ++ bs, none)

/-- `objectEncoder.AppendTime`: both the override branch and the default
branch normalize the instant to UTC before formatting. -/
def AppendTime (cfg : Config) (fmtT : String) (buf : List Nat) (t : GoTime) : List Nat :=
  match cfg.encodeTime with
  | some f => buf ++ utf8Bytes (f t.utc)
  | none => buf ++ utf8Bytes (goTimeFormat t.utc fmtT)

/-- `objectEncoder.AddTime`: key, then — with an override configured — the
override applied to the *original* value, else `AppendTime` (which
normalizes). -/
def AddTime (cfg : Config) (fmtT : String) (buf key : List Nat) (t : GoTime) : List Nat :=
  match cfg.encodeTime with
  | some f => addKey buf key ++ utf8Bytes (f t)
  | none => AppendTime cfg fmtT (addKey buf key) t

/-- `objectEncoder.AppendDuration`: the override, or the raw (unquoted)
default rendering. -/
def AppendDuration (cfg : Config) (buf : List Nat) (d : Int) : List Nat :=
  match cfg.encodeDuration with
  | some f => buf ++ utf8Bytes (f d)
  | none => buf ++ utf8Bytes (durString d)

/-- `objectEncoder.AddDuration`: key, then the override or the quoted default
rendering (the default goes through the quoting `AppendString` method). -/
def AddDuration (cfg : Config) (buf key : List Nat) (d : Int) : List Nat :=
  match cfg.encodeDuration with
  | some f => addKey buf key ++ utf8Bytes (f d)
  | none => AppendString (addKey buf key) (utf8Bytes (durString d))

end objectEncoder

/-- C2 counterexample: the claim says a separating comma is inserted before
*every* new element (object keys and array elements alike) whenever the
buffer is non-empty and its last byte is outside `{ [ : , <space>`. Encoding
the two-element string array `["a", "b"]` refutes it: after the first
element the buffer is `[91, 34, 97, 34]` — non-empty with last byte `"` (34),
which is not in the exempt set — yet the final output `["a""b"]` contains no
comma at all, because `objectEncoder.AppendString` never consults the
separator. -/
theorem c2_counterexample :
    objectEncoder.AppendArray [] [.bstr [97], .bstr [98]] = [91, 34, 97, 34, 34, 98, 34, 93] ∧
      ([91, 34, 97, 34].getLast? = some 34 ∧
        ¬ (34 = 123 ∨ 34 = 91 ∨ 34 = 58 ∨ 34 = 44 ∨ 34 = 32)) ∧
      44 ∉ objectEncoder.AppendArray [] [.bstr [97], .bstr [98]] := by
  have h : objectEncoder.AppendArray [] [.bstr [97], .bstr [98]] =
      [91, 34, 97, 34, 34, 98, 34, 93] := by
    simp [objectEncoder.AppendArray, objectEncoder.appendBVal, objectEncoder.AppendString,
      safeAppendString, tryAddRuneSelf, decodeRune]
  refine ⟨h, by decide, ?_⟩
  rw [h]
  decide

/-- C2 amended: the separator routine `addElementSeparator` appends a comma
if and only if the buffer is non-empty and its last byte is not one of
`{ [ : , <space>`; the encoder runs it before every object key (`addKey`)
and before every appended byte string (`AppendByteString`), while
`AppendString` — used for string array elements — and the numeric and
boolean appenders emit their element without consulting it. -/
theorem c2_separator_rule (buf key v : List Nat) :
    (objectEncoder.addElementSeparator buf = buf ++ [44] ↔
      ∃ c, buf.getLast? = some c ∧ ¬ (c = 123 ∨ c = 91 ∨ c = 58 ∨ c = 44 ∨ c = 32)) ∧
    (objectEncoder.addElementSeparator buf = buf ↔
      (buf = [] ∨ ∃ c, buf.getLast? = some c ∧ (c = 123 ∨ c = 91 ∨ c = 58 ∨ c = 44 ∨ c = 32))) ∧
    objectEncoder.addKey buf key =
      objectEncoder.AppendString (objectEncoder.addElementSeparator buf) key ++ [58] ∧
    objectEncoder.AppendByteString buf v =
      objectEncoder.addElementSeparator buf ++ [34] ++ safeAppendString v ++ [34] ∧
    objectEncoder.AppendString buf v = buf ++ [34] ++ safeAppendString v ++ [34] := by
  refine ⟨?_, ?_, rfl, rfl, rfl⟩
  · induction buf using List.reverseRecOn with
    | nil => simp [objectEncoder.addElementSeparator]
    | append_singleton l a ih =>
      simp only [objectEncoder.addElementSeparator, List.getLast?_concat]
      by_cases hc : a = 123 ∨ a = 91 ∨ a = 58 ∨ a = 44 ∨ a = 32
      · rw [if_pos hc]
        constructor
        · intro h
          have := congrArg List.length h
          simp at this
        · rintro ⟨c, hc1, hc2⟩
          obtain rfl : a = c := by simpa using hc1
          exact (hc2 hc).elim
      · rw [if_neg hc]
        exact ⟨fun _ => ⟨a, rfl, hc⟩, fun _ => rfl⟩
  · induction buf using List.reverseRecOn with
    | nil => simp [objectEncoder.addElementSeparator]
    | append_singleton l a ih =>
      simp only [objectEncoder.addElementSeparator, List.getLast?_concat]
      by_cases hc : a = 123 ∨ a = 91 ∨ a = 58 ∨ a = 44 ∨ a = 32
      · rw [if_pos hc]
        exact ⟨fun _ => Or.inr ⟨a, rfl, hc⟩, fun _ => rfl⟩
      · rw [if_neg hc]
        constructor
        · intro h
          have := congrArg List.length h
          simp at this
        · rintro (h | ⟨c, hc1, hc2⟩)
          · simp at h
          · obtain rfl : a = c := by simpa using hc1
            exact (hc hc2).elim

/-! ## Decoding bytes back to a string (model of Go string conversion) -/

/-- Characters of a byte string under UTF-8 decoding, with each invalid byte
replaced by U+FFFD (model of how a Go string's bytes are observed as text;
the encoders only ever reach this with valid UTF-8). -/
def bytesToChars : List Nat → List Char
  | [] => []
  | b :: rest =>
    if b < 0x80 then Char.ofNat b :: bytesToChars rest
    else if (decodeRune (b :: rest)).1 = 0xFFFD ∧ (decodeRune (b :: rest)).2 = 1 then
      Char.ofNat 0xFFFD :: bytesToChars rest
    else
      Char.ofNat (decodeRune (b :: rest)).1 ::
        bytesToChars (rest.drop ((decodeRune (b :: rest)).2 - 1))
termination_by s => s.length
decreasing_by
  · simp
  · simp
  · simp only [List.length_cons, List.length_drop]
    omega

/-- String view of a byte list. -/
def bytesAsString (l : List Nat) : String := String.mk (bytesToChars l)

/-! ## Entry metadata (model of `zapcore.Entry` as the encoders read it) -/

/-- Severity levels of `zapcore`. -/
inductive Level where
  | DebugLevel
  | InfoLevel
  | WarnLevel
  | ErrorLevel
  | DPanicLevel
  | PanicLevel
  | FatalLevel
deriving DecidableEq

/-- `zapcore.Level.String`. -/
def Level.string : Level → String
  | .DebugLevel => "debug"
  | .InfoLevel => "info"
  | .WarnLevel => "warn"
  | .ErrorLevel => "error"
  | .DPanicLevel => "dpanic"
  | .PanicLevel => "panic"
  | .FatalLevel => "fatal"

/-- Entry metadata consumed by the encoders: severity and message. -/
structure Entry where
  level : Level
  message : String

/-- One typed key/value log attribute (model of `zapcore.Field` restricted to
the value kinds the encoders dispatch on; the remaining integer and float
widths delegate to these in the source). -/
inductive LogField where
  | str (key value : String)
  | byteStr (key : String) (value : List Nat)
  | binary (key : String) (value : List Nat)
  | bool (key : String) (value : Bool)
  | int64 (key : String) (value : Int)
  | uint64 (key : String) (value : Nat)
  | float64 (key : String) (value : F64)
  | duration (key : String) (value : Int)
  | time (key : String) (value : GoTime)
  | arr (key : String) (value : List BVal)
  | obj (key : String) (value : List (List Nat × BVal))
  | reflected (key : String) (value : Reflected)
deriving DecidableEq

/-- The key of a field. -/
def LogField.key : LogField → String
  | .str k _ => k
  | .byteStr k _ => k
  | .binary k _ => k
  | .bool k _ => k
  | .int64 k _ => k
  | .uint64 k _ => k
  | .float64 k _ => k
  | .duration k _ => k
  | .time k _ => k
  | .arr k _ => k
  | .obj k _ => k
  | .reflected k _ => k

/-- Whether a field is of one of the structured kinds the CLF encoder
ignores. -/
def LogField.isStructured : LogField → Bool
  | .arr _ _ => true
  | .obj _ _ => true
  | .reflected _ _ => true
  | _ => false

/-! ## The object encoder as seen through a string buffer

The text encoder's array and object fields are marshaled through
`genericEncoder.AppendArray` / `AppendObject`, which hand the *shared*
buffer to an `objectEncoder`. These mirror the byte-level functions above
on the text encoder's string buffer (the buffer only ever holds valid
UTF-8 here, where the last byte is in the separator's exempt set exactly
when the last character is). -/

/-- Element separator on a string buffer. -/
def sAddElementSeparator (buf : String) : String :=
  match buf.data.getLast? with
  | none => buf
  | some c =>
    if c.toNat = 123 ∨ c.toNat = 91 ∨ c.toNat = 58 ∨ c.toNat = 44 ∨ c.toNat = 32 then buf
    else buf ++ ","

/-- `objectEncoder.AppendString` on a string buffer. -/
def sAppendStringQ (buf : String) (v : List Nat) : String :=
  buf ++ "\"" ++ bytesAsString (safeAppendString v) ++ "\""

/-- `objectEncoder.AppendByteString` on a string buffer. -/
def sAppendByteStringQ (buf : String) (v : List Nat) : String :=
  sAddElementSeparator buf ++ "\"" ++ bytesAsString (safeAppendString v) ++ "\""

/-- `objectEncoder.addKey` on a string buffer. -/
def sAddKey (buf : String) (k : List Nat) : String :=
  sAppendStringQ (sAddElementSeparator buf) k ++ ":"

/-- One marshaled array element on a string buffer. -/
def sAppendBVal (buf : String) : BVal → String
  | .bstr s => sAppendStringQ buf s
  | .bint n => buf ++ toString n
  | .bbool b => buf ++ (if b then "true" else "false")
  | .bbytes s => sAppendByteStringQ buf s

/-- `objectEncoder.AppendArray` on a string buffer. -/
def sAppendArray (buf : String) (xs : List BVal) : String :=
  (xs.foldl sAppendBVal (buf ++ "[")) ++ "]"

/-- One marshaled object entry on a string buffer. -/
def sAddBVal (buf : String) (kv : List Nat × BVal) : String :=
  match kv.2 with
  | .bstr s => sAppendStringQ (sAddKey buf kv.1) s
  | .bint n => sAddKey buf kv.1 ++ toString n
  | .bbool b => sAddKey buf kv.1 ++ (if b then "true" else "false")
  | .bbytes s => sAppendStringQ (sAddKey buf kv.1) s

/-- `objectEncoder.AppendObject` on a string buffer. -/
def sAppendObject (buf : String) (kvs : List (List Nat × BVal)) : String :=
  (kvs.foldl sAddBVal (buf ++ "\x7b")) ++ "\x7d"

/-! ## The text encoder (`text_encoder.go`) -/

/-- ANSI color codes of `text_encoder.go`. -/
def redColor : String := "\x1b[31m"

/-- Yellow. -/
def yellowColor : String := "\x1b[33m"

/-- Blue. -/
def blueColor : String := "\x1b[36m"

/-- Color reset. -/
def colorEnd : String := "\x1b[0m"

/-- State of a `textEncoder`: the embedded `genericEncoder`'s configuration,
buffer and default time layout, plus the current color code. -/
structure TextEnc where
  cfg : Config
  buf : String
  formatTime : String
  colorStart : String

/-- `NewTextEncoder`: empty buffer, RFC 3339 default layout, no color. -/
def newTextEncoder (cfg : Config) : TextEnc := ⟨cfg, "", rfc3339, ""⟩

/-- The fresh-sibling `textEncoder.clone`: same configuration and layout and
color, but a fresh buffer from the pool. -/
def TextEnc.clone (e : TextEnc) : TextEnc := ⟨e.cfg, "", e.formatTime, e.colorStart⟩

/-- The carrying `textEncoder.Clone`: a fresh buffer into which the already
accumulated bytes are written. -/
def TextEnc.CloneCarrying (e : TextEnc) : TextEnc := ⟨e.cfg, "" ++ e.buf, e.formatTime, e.colorStart⟩

namespace textEncoder

/-- `genericEncoder.AppendString` (raw append, no quoting or escaping). -/
def AppendString (e : TextEnc) (v : String) : TextEnc := {e with buf := e.buf ++ v}

/-- `genericEncoder.AppendByteString` (raw append of the bytes). -/
def AppendByteString (e : TextEnc) (v : List Nat) : TextEnc :=
  {e with buf := e.buf ++ bytesAsString v}

/-- `genericEncoder.AppendBool`. -/
def AppendBool (e : TextEnc) (v : Bool) : TextEnc :=
  {e with buf := e.buf ++ (if v then "true" else "false")}

/-- `genericEncoder.AppendInt64`. -/
def AppendInt64 (e : TextEnc) (v : Int) : TextEnc := {e with buf := e.buf ++ toString v}

/-- `genericEncoder.AppendUint64`. -/
def AppendUint64 (e : TextEnc) (v : Nat) : TextEnc := {e with buf := e.buf ++ toString v}

/-- `genericEncoder.AppendFloat64` via `buffer.AppendFloat`. -/
def AppendFloat64 (e : TextEnc) (v : F64) : TextEnc := {e with buf := e.buf ++ f64String v}

/-- `genericEncoder.AppendDuration`: the configured override, or the
duration's default human-readable form. -/
def AppendDuration (e : TextEnc) (v : Int) : TextEnc :=
  match e.cfg.encodeDuration with
  | some f => {e with buf := e.buf ++ f v}
  | none => {e with buf := e.buf ++ durString v}

/-- `genericEncoder.AppendTime`: the configured override, or the default
layout — in both branches the value is formatted as given, with no UTC
normalization. -/
def AppendTime (e : TextEnc) (t : GoTime) : TextEnc :=
  match e.cfg.encodeTime with
  | some f => {e with buf := e.buf ++ f t}
  | none => {e with buf := e.buf ++ goTimeFormat t e.formatTime}

/-- `genericEncoder.AppendArray`: `[`, the marshaler's appends through an
object encoder sharing the buffer, `]`; the returned error is always `nil`. -/
def AppendArray (e : TextEnc) (xs : List BVal) : TextEnc :=
  {e with buf := sAppendArray e.buf xs}

/-- `genericEncoder.AppendObject`. -/
def AppendObject (e : TextEnc) (kvs : List (List Nat × BVal)) : TextEnc :=
  {e with buf := sAppendObject e.buf kvs}

/-- `textEncoder.addKey`: the key (wrapped in the current color when one is
set) followed by `=`. -/
def addKey (e : TextEnc) (key : String) : TextEnc :=
  if e.colorStart ≠ "" then
    {e with buf := e.buf ++ (e.colorStart ++ key ++ colorEnd) ++ "="}
  else
    {e with buf := e.buf ++ key ++ "="}

/-- Left-justified space padding to a minimum width in runes, as
`fmt.Sprintf("%-44s", m)` pads (`fmt` widths count runes; no truncation). -/
def padRight (s : String) (n : Nat) : String :=
  s ++ String.mk (List.replicate (n - s.data.length) ' ')

/-- `textEncoder.addMessage`: the (colored) level name, then
`fmt.Sprintf(" %-44s ", message)`. -/
def addMessage (e : TextEnc) (level message : String) : TextEnc :=
  let e1 :=
    if e.colorStart ≠ "" then AppendString e (e.colorStart ++ level ++ colorEnd)
    else AppendString e level
  AppendString e1 (" " ++ padRight message 44 ++ " ")

/-- `textEncoder.AddString`. -/
def AddString (e : TextEnc) (k v : String) : TextEnc := AppendString (addKey e k) v

/-- `textEncoder.AddByteString`. -/
def AddByteString (e : TextEnc) (k : String) (v : List Nat) : TextEnc :=
  AddString e k (bytesAsString v)

/-- `textEncoder.AddBinary`: the base64 text wrapped in literal quotes. -/
def AddBinary (e : TextEnc) (k : String) (v : List Nat) : TextEnc :=
  AddString e k ("\"" ++ base64Encode v ++ "\"")

/-- `textEncoder.AddBool`. -/
def AddBool (e : TextEnc) (k : String) (v : Bool) : TextEnc := AppendBool (addKey e k) v

/-- `textEncoder.AddInt64`. -/
def AddInt64 (e : TextEnc) (k : String) (v : Int) : TextEnc := AppendInt64 (addKey e k) v

/-- `textEncoder.AddUint64`. -/
def AddUint64 (e : TextEnc) (k : String) (v : Nat) : TextEnc := AppendUint64 (addKey e k) v

/-- `textEncoder.AddFloat64`: NaN and the infinities render as their literal
tokens, finite values through the float appender. -/
def AddFloat64 (e : TextEnc) (k : String) (v : F64) : TextEnc :=
  match v with
  | .nan => AppendString (addKey e k) "NaN"
  | .pinf => AppendString (addKey e k) "+Inf"
  | .ninf => AppendString (addKey e k) "-Inf"
  | .finite r => AppendFloat64 (addKey e k) (.finite r)

/-- `textEncoder.AddDuration`. -/
def AddDuration (e : TextEnc) (k : String) (v : Int) : TextEnc := AppendDuration (addKey e k) v

/-- `textEncoder.AddTime`. -/
def AddTime (e : TextEnc) (k : String) (t : GoTime) : TextEnc := AppendTime (addKey e k) t

/-- `textEncoder.AddArray` (error always `nil`). -/
def AddArray (e : TextEnc) (k : String) (xs : List BVal) : TextEnc × Option String :=
  (AppendArray (addKey e k) xs, none)

/-- `textEncoder.AddObject` (error always `nil`). -/
def AddObject (e : TextEnc) (k : String) (kvs : List (List Nat × BVal)) :
    TextEnc × Option String :=
  (AppendObject (addKey e k) kvs, none)

/-- `textEncoder.AddReflected`: marshal first; on failure return the error
with the encoder untouched; on success append the raw bytes (note: no key is
added on this path in the source). -/
def AddReflected (e : TextEnc) (k : String) (v : Reflected) : TextEnc × Option String :=
  match jsonMarshal v with
  | .error m => (e, some m)
  | .ok bs => (AppendByteString e bs, none)

/-- Dispatch of `zapcore.Field.AddTo` over the text encoder's method surface,
returning the method's error (only the reflected path can produce one). -/
def applyField (e : TextEnc) : LogField → TextEnc × Option String
  | .str k v => (AddString e k v, none)
  | .byteStr k v => (AddByteString e k v, none)
  | .binary k v => (AddBinary e k v, none)
  | .bool k v => (AddBool e k v, none)
  | .int64 k v => (AddInt64 e k v, none)
  | .uint64 k v => (AddUint64 e k v, none)
  | .float64 k v => (AddFloat64 e k v, none)
  | .duration k v => (AddDuration e k v, none)
  | .time k v => (AddTime e k v, none)
  | .arr k v => AddArray e k v
  | .obj k v => AddObject e k v
  | .reflected k v => AddReflected e k v

/-- `zapcore.Field.AddTo` (external dispatch): applies the field; when the
reflected path errors, zapcore adds a `<key>Error` string field carrying the
error text. -/
def addTo (e : TextEnc) (f : LogField) : TextEnc :=
  match applyField e f with
  | (e2, none) => e2
  | (e2, some m) => AddString e2 (f.key ++ "Error") m

/-- Model of Go `strings.ToUpper` (external stdlib) on ASCII level names. -/
def goToUpper (s : String) : String := String.mk (s.data.map Char.toUpper)

/-- Colors selected by `textEncoder.EncodeEntry`'s severity switch. -/
def levelColor : Level → String
  | .WarnLevel => yellowColor
  | .ErrorLevel => redColor
  | .DPanicLevel => redColor
  | .PanicLevel => redColor
  | .FatalLevel => redColor
  | _ => blueColor

/-- `textEncoder.EncodeEntry`: fresh-sibling clone, color from severity,
colored upper-cased level name and padded message, each field followed by a
single space, and a final newline. The returned error is always `nil`. -/
def EncodeEntry (e : TextEnc) (entry : Entry) (fields : List LogField) : String :=
  let final := e.clone
  let final := {final with colorStart := levelColor entry.level}
  let final := addMessage final (goToUpper entry.level.string) entry.message
  let final := fields.foldl (fun acc f =>
    let a := addTo acc f
    {a with buf := a.buf ++ " "}) final
  final.buf ++ "\n"

end textEncoder

/-! ## The CLF encoder (`clf_encoder.go`) -/

/-- The eleven CLF column names, in output order (`clfFields`). -/
def clfFields : List String :=
  ["request-id", "remote-address", "name", "user-id", "time", "duration",
   "method", "path", "protocol", "status", "size"]

/-- The name→column lookup built by `init` (`clfFieldsMap`). -/
def clfFieldsMap (key : String) : Option Nat :=
  if key = "request-id" then some 0
  else if key = "remote-address" then some 1
  else if key = "name" then some 2
  else if key = "user-id" then some 3
  else if key = "time" then some 4
  else if key = "duration" then some 5
  else if key = "method" then some 6
  else if key = "path" then some 7
  else if key = "protocol" then some 8
  else if key = "status" then some 9
  else if key = "size" then some 10
  else none

/-- The all-dash column state built by `init` (`clfFieldsEmpty`). -/
def clfFieldsEmpty : List String := List.replicate 11 "-"

namespace clfEncoder

/-- The shared guarded write of every CLF add method: set the column of a
known key, silently drop an unknown key. -/
def setCol (d : List String) (key value : String) : List String :=
  match clfFieldsMap key with
  | some i => d.set i value
  | none => d

/-- `clfEncoder.AddString`. -/
def AddString (d : List String) (k v : String) : List String := setCol d k v

/-- `clfEncoder.AddByteString`. -/
def AddByteString (d : List String) (k : String) (v : List Nat) : List String :=
  setCol d k (bytesAsString v)

/-- `clfEncoder.AddBinary` (base64). -/
def AddBinary (d : List String) (k : String) (v : List Nat) : List String :=
  setCol d k (base64Encode v)

/-- `clfEncoder.AddBool` via `strconv.FormatBool`. -/
def AddBool (d : List String) (k : String) (v : Bool) : List String :=
  setCol d k (if v then "true" else "false")

/-- `clfEncoder.AddInt64` via `strconv.FormatInt`. -/
def AddInt64 (d : List String) (k : String) (v : Int) : List String := setCol d k (toString v)

/-- `clfEncoder.AddUint64` via `strconv.FormatUint`. -/
def AddUint64 (d : List String) (k : String) (v : Nat) : List String := setCol d k (toString v)

/-- `clfEncoder.AddFloat64`: the special values as literal tokens, finite
values via `strconv.FormatFloat`. -/
def AddFloat64 (d : List String) (k : String) (v : F64) : List String := setCol d k (f64String v)

/-- `clfEncoder.AddDuration`: always whole milliseconds
(`strconv.FormatInt(value.Milliseconds(), 10)`, truncated division), never
consulting the configuration's duration override. -/
def AddDuration (cfg : Config) (d : List String) (k : String) (v : Int) : List String :=
  setCol d k (toString (Int.tdiv v 1000000))

/-- `clfEncoder.AddTime`: always `value.Format(time.RFC3339)` on the value as
given, never consulting the configuration's time override. -/
def AddTime (cfg : Config) (d : List String) (k : String) (t : GoTime) : List String :=
  setCol d k (goTimeFormat t rfc3339)

/-- `clfEncoder.AddArray`: an unconditional no-op returning `nil`. -/
def AddArray (d : List String) (k : String) (xs : List BVal) : List String × Option String :=
  (d, none)

/-- `clfEncoder.AddObject`: an unconditional no-op returning `nil`. -/
def AddObject (d : List String) (k : String) (kvs : List (List Nat × BVal)) :
    List String × Option String :=
  (d, none)

/-- `clfEncoder.AddReflected`: an unconditional no-op returning `nil`. -/
def AddReflected (d : List String) (k : String) (v : Reflected) : List String × Option String :=
  (d, none)

/-- Dispatch of `zapcore.Field.AddTo` over the CLF encoder's method surface,
with the method's returned error. -/
def applyField (cfg : Config) (d : List String) : LogField → List String × Option String
  | .str k v => (AddString d k v, none)
  | .byteStr k v => (AddByteString d k v, none)
  | .binary k v => (AddBinary d k v, none)
  | .bool k v => (AddBool d k v, none)
  | .int64 k v => (AddInt64 d k v, none)
  | .uint64 k v => (AddUint64 d k v, none)
  | .float64 k v => (AddFloat64 d k v, none)
  | .duration k v => (AddDuration cfg d k v, none)
  | .time k v => (AddTime cfg d k v, none)
  | .arr k v => AddArray d k v
  | .obj k v => AddObject d k v
  | .reflected k v => AddReflected d k v

/-- `zapcore.Field.AddTo` on the CLF encoder (no method ever errors, so the
zapcore error fallback never fires). -/
def addTo (cfg : Config) (d : List String) (f : LogField) : List String :=
  (applyField cfg d f).1

/-- `clfEncoder.EncodeEntry`, transcribing the source's append sequence: a
fresh-sibling clone (every column `-`, the receiver's accumulated columns
`edata` unused), the message line when the message is non-empty, an early
return when no fields were supplied, else the eleven columns with the
quoted method/path/protocol triplet, terminated by a newline. -/
def EncodeEntry (edata : List String) (cfg : Config) (entry : Entry)
    (fields : List LogField) : String :=
  let final := clfFieldsEmpty
  let buf := ""
  let buf := if entry.message ≠ "" then buf ++ entry.message ++ "\n" else buf
  if fields.length = 0 then buf
  else
    let final := fields.foldl (addTo cfg) final
    let buf := buf ++ final.getD 0 ""
    let buf := buf ++ " "
    let buf := buf ++ final.getD 1 ""
    let buf := buf ++ " "
    let buf := buf ++ final.getD 2 ""
    let buf := buf ++ " "
    let buf := buf ++ final.getD 3 ""
    let buf := buf ++ " "
    let buf := buf ++ final.getD 4 ""
    let buf := buf ++ " "
    let buf := buf ++ final.getD 5 ""
    let buf := buf ++ " \""
    let buf := buf ++ final.getD 6 ""
    let buf := buf ++ " "
    let buf := buf ++ final.getD 7 ""
    let buf := buf ++ " "
    let buf := buf ++ final.getD 8 ""
    let buf := buf ++ "\" "
    let buf := buf ++ final.getD 9 ""
    let buf := buf ++ " "
    let buf := buf ++ final.getD 10 ""
    buf ++ "\n"

end clfEncoder

/-! ## Keyed add methods of the object encoder and per-encoder field dispatch -/

namespace objectEncoder

/-- `objectEncoder.AddByteString` delegates to `AddString` on the bytes. -/
def AddByteString (buf key v : List Nat) : List Nat := AddString buf key v

/-- `objectEncoder.AddBinary` delegates to `AddString` on the base64 text. -/
def AddBinary (buf key : List Nat) (v : List Nat) : List Nat :=
  AddString buf key (utf8Bytes (base64Encode v))

/-- `objectEncoder.AddBool`. -/
def AddBool (buf key : List Nat) (v : Bool) : List Nat := AppendBool (addKey buf key) v

/-- `objectEncoder.AddInt64`. -/
def AddInt64 (buf key : List Nat) (v : Int) : List Nat := AppendInt64 (addKey buf key) v

/-- `objectEncoder.AddUint64`. -/
def AddUint64 (buf key : List Nat) (v : Nat) : List Nat := AppendUint64 (addKey buf key) v

/-- `objectEncoder.AddFloat64`: special values as quoted literal tokens,
finite values through the raw float appender. -/
def AddFloat64 (buf key : List Nat) (v : F64) : List Nat :=
  match v with
  | .nan => AppendString (addKey buf key) (utf8Bytes "NaN")
  | .pinf => AppendString (addKey buf key) (utf8Bytes "+Inf")
  | .ninf => AppendString (addKey buf key) (utf8Bytes "-Inf")
  | .finite r => AppendFloat64 (addKey buf key) (.finite r)

/-- Dispatch of `zapcore.Field.AddTo` over the object encoder's method
surface, with the method's returned error. -/
def applyField (cfg : Config) (fmtT : String) (buf : List Nat) :
    LogField → List Nat × Option String
  | .str k v => (AddString buf (utf8Bytes k) (utf8Bytes v), none)
  | .byteStr k v => (AddByteString buf (utf8Bytes k) v, none)
  | .binary k v => (AddBinary buf (utf8Bytes k) v, none)
  | .bool k v => (AddBool buf (utf8Bytes k) v, none)
  | .int64 k v => (AddInt64 buf (utf8Bytes k) v, none)
  | .uint64 k v => (AddUint64 buf (utf8Bytes k) v, none)
  | .float64 k v => (AddFloat64 buf (utf8Bytes k) v, none)
  | .duration k v => (AddDuration cfg buf (utf8Bytes k) v, none)
  | .time k v => (AddTime cfg fmtT buf (utf8Bytes k) v, none)
  | .arr k v => AddArray buf (utf8Bytes k) v
  | .obj k v => AddObject buf (utf8Bytes k) v
  | .reflected k v => AddReflected buf (utf8Bytes k) v

end objectEncoder

namespace textEncoder

/-- `genericEncoder.AppendReflected`: marshal first; on failure return the
error with the buffer untouched; on success append the raw bytes. -/
def AppendReflected (e : TextEnc) (v : Reflected) : TextEnc × Option String :=
  match jsonMarshal v with
  | .error m => (e, some m)
  | .ok bs => ({e with buf := e.buf ++ bytesAsString bs}, none)

end textEncoder

/-! ## Claim-side rendering of a CLF entry -/

/-- Appending to the empty string is the identity. -/
theorem strEmptyAppend (s : String) : "" ++ s = s := rfl

/-- The message line of a CLF entry: the message and a newline when the
message is non-empty, nothing otherwise. -/
def clfMsgPart (entry : Entry) : String :=
  if entry.message ≠ "" then entry.message ++ "\n" else ""

/-- The eleven-column CLF line over a column state: columns in the fixed
order, space-separated, with the method/path/protocol triplet quoted,
terminated by a newline. -/
def clfLine (d : List String) : String :=
  d.getD 0 "" ++ " " ++ d.getD 1 "" ++ " " ++ d.getD 2 "" ++ " " ++ d.getD 3 "" ++ " " ++
  d.getD 4 "" ++ " " ++ d.getD 5 "" ++ " \"" ++ d.getD 6 "" ++ " " ++ d.getD 7 "" ++ " " ++
  d.getD 8 "" ++ "\" " ++ d.getD 9 "" ++ " " ++ d.getD 10 "" ++ "\n"

/-- The column state reached after applying a field list to the all-dash
fresh-sibling state. -/
def clfData (cfg : Config) (fields : List LogField) : List String :=
  fields.foldl (clfEncoder.addTo cfg) clfFieldsEmpty

/-- Setting one position leaves every other position unchanged. -/
theorem getD_set_ne (l : List String) (j i : Nat) (v : String) (h : j ≠ i) :
    (l.set j v).getD i "" = l.getD i "" := by
  induction l generalizing i j with
  | nil => simp
  | cons a t ih =>
    cases j with
    | zero =>
      cases i with
      | zero => exact absurd rfl h
      | succ i2 => simp
    | succ j2 =>
      cases i with
      | zero => simp
      | succ i2 =>
        simp only [List.set_cons_succ, List.getD_cons_succ]
        exact ih _ _ (by omega)

set_option maxHeartbeats 1000000 in
/-- The name→column lookup is consistent with the column-name list. -/
theorem clfFieldsMap_getD (k : String) (i : Nat) (h : clfFieldsMap k = some i) :
    clfFields.getD i "" = k := by
  unfold clfFieldsMap at h
  split_ifs at h with h1 h2 h3 h4 h5 h6 h7 h8 h9 h10 h11
  · obtain rfl : (0 : Nat) = i := Option.some.inj h
    rw [h1]
    rfl
  · obtain rfl : (1 : Nat) = i := Option.some.inj h
    rw [h2]
    rfl
  · obtain rfl : (2 : Nat) = i := Option.some.inj h
    rw [h3]
    rfl
  · obtain rfl : (3 : Nat) = i := Option.some.inj h
    rw [h4]
    rfl
  · obtain rfl : (4 : Nat) = i := Option.some.inj h
    rw [h5]
    rfl
  · obtain rfl : (5 : Nat) = i := Option.some.inj h
    rw [h6]
    rfl
  · obtain rfl : (6 : Nat) = i := Option.some.inj h
    rw [h7]
    rfl
  · obtain rfl : (7 : Nat) = i := Option.some.inj h
    rw [h8]
    rfl
  · obtain rfl : (8 : Nat) = i := Option.some.inj h
    rw [h9]
    rfl
  · obtain rfl : (9 : Nat) = i := Option.some.inj h
    rw [h10]
    rfl
  · obtain rfl : (10 : Nat) = i := Option.some.inj h
    rw [h11]
    rfl

/-- The guarded column write leaves a column whose name differs from the
field's key unchanged. -/
theorem setCol_preserve (d : List String) (k v : String) (i : Nat)
    (hk : k ≠ clfFields.getD i "") :
    (clfEncoder.setCol d k v).getD i "" = d.getD i "" := by
  unfold clfEncoder.setCol
  cases hm : clfFieldsMap k with
  | none => rfl
  | some j =>
    have hj := clfFieldsMap_getD k j hm
    exact getD_set_ne d j i v (fun hji => hk (by rw [← hj, hji]))

/-- Applying any field whose key differs from a column's name leaves that
column unchanged. -/
theorem clf_addTo_preserve (cfg : Config) (d : List String) (f : LogField) (i : Nat)
    (hk : LogField.key f ≠ clfFields.getD i "") :
    (clfEncoder.addTo cfg d f).getD i "" = d.getD i "" := by
  cases f <;>
    simp only [clfEncoder.addTo, clfEncoder.applyField, clfEncoder.AddString,
      clfEncoder.AddByteString, clfEncoder.AddBinary, clfEncoder.AddBool, clfEncoder.AddInt64,
      clfEncoder.AddUint64, clfEncoder.AddFloat64, clfEncoder.AddDuration, clfEncoder.AddTime,
      clfEncoder.AddArray, clfEncoder.AddObject, clfEncoder.AddReflected, LogField.key] at hk ⊢ <;>
    first
      | rfl
      | exact setCol_preserve _ _ _ _ hk

/-- A column left untouched by every field of the list keeps its value. -/
theorem clf_foldl_preserve (cfg : Config) (i : Nat) (fields : List LogField) :
    ∀ d : List String, (∀ f ∈ fields, LogField.key f ≠ clfFields.getD i "") →
      (fields.foldl (clfEncoder.addTo cfg) d).getD i "" = d.getD i "" := by
  induction fields with
  | nil => intro d _; rfl
  | cons f fs ih =>
    intro d h
    rw [List.foldl_cons, ih _ (fun g hg => h g (by simp [hg])),
      clf_addTo_preserve cfg d f i (h f (by simp))]

/-- C1: the CLF entry encoder writes the message followed by a newline first
when the message is non-empty; with an empty field list nothing else is
written; with a non-empty field list exactly one newline-terminated line of
the eleven columns follows, in the fixed order with the quoted triplet, and
every column whose key was not supplied renders as `-`. -/
theorem c1_clf_encode_entry (edata : List String) (cfg : Config) (entry : Entry)
    (fields : List LogField) :
    clfEncoder.EncodeEntry edata cfg entry fields =
      clfMsgPart entry ++ (if fields = [] then "" else clfLine (clfData cfg fields)) ∧
    ∀ i : Nat, i < 11 → (∀ f ∈ fields, LogField.key f ≠ clfFields.getD i "") →
      (clfData cfg fields).getD i "" = "-" := by
  constructor
  · cases fields with
    | nil => simp [clfEncoder.EncodeEntry, clfMsgPart]
    | cons f fs =>
      simp only [clfEncoder.EncodeEntry, clfMsgPart, clfLine, clfData, List.length_cons,
        strEmptyAppend]
      rw [if_neg (by simp : ¬ (fs.length + 1) = 0), if_neg (by simp : ¬ (f :: fs) = [])]
      by_cases h : entry.message = "" <;>
        simp [h, String.append_assoc, strEmptyAppend]
  · intro i hi h
    rw [clfData, clf_foldl_preserve cfg i fields clfFieldsEmpty h]
    interval_cases i <;> rfl

/-- Witness for C1: an entry with a message and a partial field list; columns
2 (`name`) and 10 (`size`) were not supplied and render as `-`. -/
theorem c1_clf_encode_entry_witness :
    (clfEncoder.EncodeEntry clfFieldsEmpty {} ⟨.InfoLevel, "hello"⟩
        [.str "request-id" "abc", .int64 "status" 200] =
      clfMsgPart ⟨.InfoLevel, "hello"⟩ ++
        (if ([.str "request-id" "abc", .int64 "status" 200] : List LogField) = [] then ""
         else clfLine (clfData {} [.str "request-id" "abc", .int64 "status" 200]))) ∧
    (clfData {} [.str "request-id" "abc", .int64 "status" 200]).getD 2 "" = "-" ∧
    (clfData {} [.str "request-id" "abc", .int64 "status" 200]).getD 10 "" = "-" :=
  ⟨(c1_clf_encode_entry clfFieldsEmpty {} ⟨.InfoLevel, "hello"⟩
      [.str "request-id" "abc", .int64 "status" 200]).1,
   (c1_clf_encode_entry clfFieldsEmpty {} ⟨.InfoLevel, "hello"⟩
      [.str "request-id" "abc", .int64 "status" 200]).2 2 (by norm_num)
      (by intro f hf; simp only [List.mem_cons, List.mem_singleton, List.not_mem_nil,
        or_false] at hf; rcases hf with rfl | rfl <;> simp [LogField.key, clfFields]),
   (c1_clf_encode_entry clfFieldsEmpty {} ⟨.InfoLevel, "hello"⟩
      [.str "request-id" "abc", .int64 "status" 200]).2 10 (by norm_num)
      (by intro f hf; simp only [List.mem_cons, List.mem_singleton, List.not_mem_nil,
        or_false] at hf; rcases hf with rfl | rfl <;> simp [LogField.key, clfFields])⟩

/-- C9: the CLF encoder's array, object and reflected operations return `nil`
and leave the column state unchanged, for every key and value; hence applying
such a field anywhere in a non-empty field list leaves the finalized output
unchanged. -/
theorem c9_clf_structured_noop (cfg : Config) (d edata : List String) (k : String)
    (xs : List BVal) (kvs : List (List Nat × BVal)) (v : Reflected) (entry : Entry)
    (fields1 fields2 : List LogField) (f : LogField) :
    clfEncoder.AddArray d k xs = (d, none) ∧
    clfEncoder.AddObject d k kvs = (d, none) ∧
    clfEncoder.AddReflected d k v = (d, none) ∧
    (f.isStructured = true → clfEncoder.addTo cfg d f = d) ∧
    (f.isStructured = true → fields1 ++ fields2 ≠ [] →
      clfEncoder.EncodeEntry edata cfg entry (fields1 ++ f :: fields2) =
        clfEncoder.EncodeEntry edata cfg entry (fields1 ++ fields2)) := by
  have hnoop : f.isStructured = true → ∀ d2 : List String, clfEncoder.addTo cfg d2 f = d2 := by
    intro hs d2
    cases f <;> simp_all [LogField.isStructured, clfEncoder.addTo, clfEncoder.applyField,
      clfEncoder.AddArray, clfEncoder.AddObject, clfEncoder.AddReflected]
  refine ⟨rfl, rfl, rfl, fun hs => hnoop hs d, fun hs hne => ?_⟩
  have hfold : (fields1 ++ f :: fields2).foldl (clfEncoder.addTo cfg) clfFieldsEmpty =
      (fields1 ++ fields2).foldl (clfEncoder.addTo cfg) clfFieldsEmpty := by
    rw [List.foldl_append, List.foldl_append, List.foldl_cons, hnoop hs]
  have hlen1 : ¬ (fields1 ++ f :: fields2).length = 0 := by simp
  have hlen2 : ¬ (fields1 ++ fields2).length = 0 := by
    simp only [List.length_append]
    intro hcontra
    exact hne (by
      have h1 : fields1 = [] := List.eq_nil_of_length_eq_zero (by omega)
      have h2 : fields2 = [] := List.eq_nil_of_length_eq_zero (by omega)
      rw [h1, h2]
      rfl)
  simp only [clfEncoder.EncodeEntry, hfold, if_neg hlen1, if_neg hlen2]

/-- Witness for C9: an array field inserted into a one-field list changes
nothing. -/
theorem c9_clf_structured_noop_witness :
    clfEncoder.AddReflected clfFieldsEmpty "status" (.unmarshalable "boom") =
      (clfFieldsEmpty, none) ∧
    clfEncoder.addTo {} clfFieldsEmpty (.arr "status" [.bint 1]) = clfFieldsEmpty ∧
    clfEncoder.EncodeEntry clfFieldsEmpty {} ⟨.InfoLevel, "m"⟩
        ([.str "name" "svc"] ++ LogField.arr "status" [.bint 1] :: []) =
      clfEncoder.EncodeEntry clfFieldsEmpty {} ⟨.InfoLevel, "m"⟩ ([.str "name" "svc"] ++ []) :=
  ⟨(c9_clf_structured_noop {} clfFieldsEmpty clfFieldsEmpty "status" [] []
      (.unmarshalable "boom") ⟨.InfoLevel, "m"⟩ [] [] (.arr "status" [.bint 1])).2.2.1,
   (c9_clf_structured_noop {} clfFieldsEmpty clfFieldsEmpty "status" [] []
      (.unmarshalable "boom") ⟨.InfoLevel, "m"⟩ [] [] (.arr "status" [.bint 1])).2.2.2.1 rfl,
   (c9_clf_structured_noop {} clfFieldsEmpty clfFieldsEmpty "status" [] []
      (.unmarshalable "boom") ⟨.InfoLevel, "m"⟩ [.str "name" "svc"] []
      (.arr "status" [.bint 1])).2.2.2.2 rfl (by simp)⟩

/-- C6: the CLF encoder renders a duration field as whole milliseconds
(truncated division by 10^6) and a time field in the fixed RFC 3339 layout,
and both renderings are independent of any duration- or time-formatting
override in the configuration. -/
theorem c6_clf_fixed_rendering (cfg cfg2 : Config) (d : List String) (k : String)
    (v : Int) (t : GoTime) (i : Nat) :
    clfEncoder.AddDuration cfg d k v = clfEncoder.AddDuration cfg2 d k v ∧
    clfEncoder.AddTime cfg d k t = clfEncoder.AddTime cfg2 d k t ∧
    (clfFieldsMap k = some i →
      clfEncoder.AddDuration cfg d k v = d.set i (toString (Int.tdiv v 1000000)) ∧
      clfEncoder.AddTime cfg d k t = d.set i (goTimeFormat t rfc3339)) := by
  refine ⟨rfl, rfl, fun h => ⟨?_, ?_⟩⟩
  · unfold clfEncoder.AddDuration clfEncoder.setCol
    rw [h]
  · unfold clfEncoder.AddTime clfEncoder.setCol
    rw [h]

/-- Witness for C6: a configuration carrying both overrides renders the
`duration` and `time` columns exactly as the default configuration does. -/
theorem c6_clf_fixed_rendering_witness :
    clfEncoder.AddDuration ⟨some (fun _ => "overridden"), some (fun _ => "overridden")⟩
        clfFieldsEmpty "duration" 65000000 =
      clfEncoder.AddDuration {} clfFieldsEmpty "duration" 65000000 ∧
    clfEncoder.AddTime ⟨some (fun _ => "overridden"), some (fun _ => "overridden")⟩
        clfFieldsEmpty "time" ⟨3, 60⟩ =
      clfEncoder.AddTime {} clfFieldsEmpty "time" ⟨3, 60⟩ ∧
    clfEncoder.AddDuration {} clfFieldsEmpty "duration" 65000000 =
      clfFieldsEmpty.set 5 (toString (Int.tdiv 65000000 1000000)) ∧
    clfEncoder.AddTime {} clfFieldsEmpty "time" ⟨3, 60⟩ =
      clfFieldsEmpty.set 4 (goTimeFormat ⟨3, 60⟩ rfc3339) :=
  ⟨(c6_clf_fixed_rendering ⟨some (fun _ => "overridden"), some (fun _ => "overridden")⟩ {}
      clfFieldsEmpty "duration" 65000000 ⟨3, 60⟩ 5).1,
   (c6_clf_fixed_rendering ⟨some (fun _ => "overridden"), some (fun _ => "overridden")⟩ {}
      clfFieldsEmpty "time" 65000000 ⟨3, 60⟩ 4).2.1,
   ((c6_clf_fixed_rendering {} {} clfFieldsEmpty "duration" 65000000 ⟨3, 60⟩ 5).2.2
      (by decide)).1,
   ((c6_clf_fixed_rendering {} {} clfFieldsEmpty "time" 65000000 ⟨3, 60⟩ 4).2.2
      (by decide)).2⟩

/-- C7: across the encoders, the reflected-append operations return an error
exactly when the fallback JSON serializer fails, the buffer (or encoder
state) is unchanged whenever they do, and no other method of the field
dispatch surface is fallible; the CLF encoder's dispatch never errors at
all. -/
theorem c7_reflected_only_fallible (cfg : Config) (fmtT : String) (bufB keyB : List Nat)
    (e : TextEnc) (k : String) (v : Reflected) (m : String) (f : LogField)
    (d : List String) :
    ((objectEncoder.AddReflected bufB keyB v).2 = some m ↔ jsonMarshal v = .error m) ∧
    (jsonMarshal v = .error m → objectEncoder.AddReflected bufB keyB v = (bufB, some m)) ∧
    ((objectEncoder.AppendReflected bufB v).2 = some m ↔ jsonMarshal v = .error m) ∧
    (jsonMarshal v = .error m → objectEncoder.AppendReflected bufB v = (bufB, some m)) ∧
    ((textEncoder.AddReflected e k v).2 = some m ↔ jsonMarshal v = .error m) ∧
    (jsonMarshal v = .error m → textEncoder.AddReflected e k v = (e, some m)) ∧
    ((textEncoder.AppendReflected e v).2 = some m ↔ jsonMarshal v = .error m) ∧
    (jsonMarshal v = .error m → textEncoder.AppendReflected e v = (e, some m)) ∧
    ((∀ kk vv, f ≠ .reflected kk vv) →
      (objectEncoder.applyField cfg fmtT bufB f).2 = none ∧
      (textEncoder.applyField e f).2 = none ∧
      (clfEncoder.applyField cfg d f).2 = none) ∧
    ((objectEncoder.applyField cfg fmtT bufB f).2 = some m →
      ∃ kk vv, f = .reflected kk vv ∧ jsonMarshal vv = .error m) ∧
    ((textEncoder.applyField e f).2 = some m →
      ∃ kk vv, f = .reflected kk vv ∧ jsonMarshal vv = .error m) ∧
    (clfEncoder.applyField cfg d f).2 = none := by
  refine ⟨?_, ?_, ?_, ?_, ?_, ?_, ?_, ?_, ?_, ?_, ?_, ?_⟩
  · cases v <;> simp [objectEncoder.AddReflected, jsonMarshal]
  · intro h
    cases v <;> simp_all [objectEncoder.AddReflected, jsonMarshal]
  · cases v <;> simp [objectEncoder.AppendReflected, jsonMarshal]
  · intro h
    cases v <;> simp_all [objectEncoder.AppendReflected, jsonMarshal]
  · cases v <;> simp [textEncoder.AddReflected, jsonMarshal]
  · intro h
    cases v <;> simp_all [textEncoder.AddReflected, jsonMarshal]
  · cases v <;> simp [textEncoder.AppendReflected, jsonMarshal]
  · intro h
    cases v <;> simp_all [textEncoder.AppendReflected, jsonMarshal]
  · intro hnr
    cases f with
    | reflected kk vv => exact absurd rfl (hnr kk vv)
    | _ =>
      refine ⟨?_, ?_, ?_⟩ <;>
        simp [objectEncoder.applyField, textEncoder.applyField, clfEncoder.applyField,
          objectEncoder.AddArray, objectEncoder.AddObject, textEncoder.AddArray,
          textEncoder.AddObject, clfEncoder.AddArray, clfEncoder.AddObject]
  · intro h
    cases f <;>
      simp_all [objectEncoder.applyField, objectEncoder.AddArray, objectEncoder.AddObject,
        objectEncoder.AddReflected, jsonMarshal]
    case reflected kk vv =>
      cases vv with
      | marshalable j => simp_all [jsonMarshal]
      | unmarshalable msg =>
        simp_all [jsonMarshal]
        exact ⟨kk, .unmarshalable m, ⟨rfl, rfl⟩, rfl⟩
  · intro h
    cases f <;>
      simp_all [textEncoder.applyField, textEncoder.AddArray, textEncoder.AddObject,
        textEncoder.AddReflected, jsonMarshal]
    case reflected kk vv =>
      cases vv with
      | marshalable j => simp_all [jsonMarshal]
      | unmarshalable msg =>
        simp_all [jsonMarshal]
        exact ⟨kk, .unmarshalable m, ⟨rfl, rfl⟩, rfl⟩
  · cases f <;>
      simp [clfEncoder.applyField, clfEncoder.AddArray, clfEncoder.AddObject,
        clfEncoder.AddReflected]

/-- Witness for C7: a failing reflected value propagates its error with the
buffer untouched; a string field and the CLF dispatch never error. -/
theorem c7_reflected_only_fallible_witness :
    objectEncoder.AddReflected [] [107] (.unmarshalable "boom") = ([], some "boom") ∧
    textEncoder.AddReflected (newTextEncoder {}) "k" (.unmarshalable "boom") =
      (newTextEncoder {}, some "boom") ∧
    (objectEncoder.applyField {} rfc3339 [] (.str "a" "b")).2 = none ∧
    (clfEncoder.applyField {} clfFieldsEmpty
      (.reflected "k" (.unmarshalable "boom"))).2 = none :=
  ⟨(c7_reflected_only_fallible {} rfc3339 [] [107] (newTextEncoder {}) "k"
      (.unmarshalable "boom") "boom" (.str "a" "b") clfFieldsEmpty).2.1 rfl,
   (c7_reflected_only_fallible {} rfc3339 [] [107] (newTextEncoder {}) "k"
      (.unmarshalable "boom") "boom" (.str "a" "b") clfFieldsEmpty).2.2.2.2.2.1 rfl,
   ((c7_reflected_only_fallible {} rfc3339 [] [107] (newTextEncoder {}) "k"
      (.unmarshalable "boom") "boom" (.str "a" "b") clfFieldsEmpty).2.2.2.2.2.2.2.2.1
      (by intro kk vv; simp)).1,
   (c7_reflected_only_fallible {} rfc3339 [] [107] (newTextEncoder {}) "k"
      (.unmarshalable "boom") "boom" (.reflected "k" (.unmarshalable "boom"))
      clfFieldsEmpty).2.2.2.2.2.2.2.2.2.2.2⟩

/-- C8 counterexample: the claim says the JSON-shaped encoder normalizes the
instant to UTC before formatting *both* with a custom time override and with
the default layout. With an override configured, `objectEncoder.AddTime`
hands the override the original value (`encoder(value, e)`, not
`value.UTC()`): an override that renders the zone offset distinguishes a
time from its UTC normalization. -/
theorem c8_counterexample :
    objectEncoder.AddTime ⟨none, some (fun t => toString t.offset)⟩ rfc3339 [] [107] ⟨0, 7⟩ ≠
      objectEncoder.AddTime ⟨none, some (fun t => toString t.offset)⟩ rfc3339 [] [107]
        (GoTime.utc ⟨0, 7⟩) := by
  simp [objectEncoder.AddTime, objectEncoder.addKey, objectEncoder.AppendString,
    objectEncoder.addElementSeparator, safeAppendString, tryAddRuneSelf, utf8Bytes,
    utf8Encode, GoTime.utc]
  decide

/-- C8 amended: the JSON-shaped appender path (`AppendTime`) normalizes the
instant to UTC in both its branches, and the keyed `AddTime` normalizes when
no override is configured; with an override configured, `AddTime` passes the
original instant to the override. The text encoder's generic path and the
CLF encoder format the timestamp without normalizing to UTC. -/
theorem c8_time_normalization (cfg : Config) (fmtT : String) (bufB keyB : List Nat)
    (e : TextEnc) (t t2 : GoTime) (f : GoTime → String) (d : List String) (k : String) :
    (t.nanos = t2.nanos →
      objectEncoder.AppendTime cfg fmtT bufB t = objectEncoder.AppendTime cfg fmtT bufB t2) ∧
    (t.nanos = t2.nanos →
      objectEncoder.AddTime ⟨cfg.encodeDuration, none⟩ fmtT bufB keyB t =
        objectEncoder.AddTime ⟨cfg.encodeDuration, none⟩ fmtT bufB keyB t2) ∧
    objectEncoder.AddTime ⟨cfg.encodeDuration, some f⟩ fmtT bufB keyB t =
      objectEncoder.addKey bufB keyB ++ utf8Bytes (f t) ∧
    (textEncoder.AppendTime {e with cfg := ⟨e.cfg.encodeDuration, none⟩} t).buf =
      e.buf ++ goTimeFormat t e.formatTime ∧
    (textEncoder.AppendTime (newTextEncoder {}) ⟨0, 7⟩).buf ≠
      (textEncoder.AppendTime (newTextEncoder {}) (GoTime.utc ⟨0, 7⟩)).buf ∧
    clfEncoder.AddTime cfg d k t = clfEncoder.setCol d k (goTimeFormat t rfc3339) ∧
    clfEncoder.AddTime {} clfFieldsEmpty "time" ⟨0, 7⟩ ≠
      clfEncoder.AddTime {} clfFieldsEmpty "time" (GoTime.utc ⟨0, 7⟩) := by
  have hutc : t.nanos = t2.nanos → t.utc = t2.utc := by
    intro h
    cases t
    cases t2
    simp_all [GoTime.utc]
  refine ⟨?_, ?_, rfl, rfl, ?_, rfl, ?_⟩
  · intro h
    cases hc : cfg.encodeTime <;> simp [objectEncoder.AppendTime, hc, hutc h]
  · intro h
    simp [objectEncoder.AddTime, objectEncoder.AppendTime, hutc h]
  · simp [textEncoder.AppendTime, newTextEncoder, goTimeFormat, GoTime.utc]
    decide
  · simp [clfEncoder.AddTime, clfEncoder.setCol, clfFieldsMap, goTimeFormat, GoTime.utc,
      clfFieldsEmpty]
    decide

/-- Witness for C8: two representations of the same instant with different
zone offsets are rendered identically by the JSON-shaped paths. -/
theorem c8_time_normalization_witness :
    objectEncoder.AppendTime {} rfc3339 [] ⟨5, 9⟩ =
      objectEncoder.AppendTime {} rfc3339 [] ⟨5, 0⟩ ∧
    objectEncoder.AddTime ⟨none, none⟩ rfc3339 [] [107] ⟨5, 9⟩ =
      objectEncoder.AddTime ⟨none, none⟩ rfc3339 [] [107] ⟨5, 0⟩ :=
  ⟨(c8_time_normalization {} rfc3339 [] [107] (newTextEncoder {}) ⟨5, 9⟩ ⟨5, 0⟩
      (fun _ => "") clfFieldsEmpty "time").1 rfl,
   (c8_time_normalization {} rfc3339 [] [107] (newTextEncoder {}) ⟨5, 9⟩ ⟨5, 0⟩
      (fun _ => "") clfFieldsEmpty "time").2.1 rfl⟩

/-! ## Compositionality of the string-buffer object encoder -/

/-- A string with a non-empty prefix is non-empty. -/
theorem strAppend_ne_left (x y : String) (h : x ≠ "") : x ++ y ≠ "" := by
  intro hc
  have hlen := congrArg String.length hc
  rw [String.length_append] at hlen
  have h0 : ("" : String).length = 0 := rfl
  have hx : x.data ≠ [] := fun hd => h (String.ext (by simp [hd]))
  have hpos : 0 < x.length := by
    cases hd : x.data with
    | nil => exact absurd hd hx
    | cons a t => simp [String.length, hd]
  omega

/-- The separator distributes over a non-empty suffix. -/
theorem sSep_append (b x : String) (h : x ≠ "") :
    sAddElementSeparator (b ++ x) = b ++ sAddElementSeparator x := by
  obtain ⟨c, hc⟩ : ∃ c, x.data.getLast? = some c := by
    cases hx : x.data.getLast? with
    | none => exact absurd (String.ext (by simpa [List.getLast?_eq_none_iff] using hx)) h
    | some c => exact ⟨c, rfl⟩
  have hlast : (b ++ x).data.getLast? = some c := by
    rw [String.data_append, List.getLast?_append, hc]
    rfl
  unfold sAddElementSeparator
  simp only [hlast, hc]
  split_ifs <;> simp [String.append_assoc]

/-- The separator's output keeps a non-empty buffer non-empty. -/
theorem sSep_ne (x : String) (h : x ≠ "") : sAddElementSeparator x ≠ "" := by
  unfold sAddElementSeparator
  cases hx : x.data.getLast? with
  | none =>
    simp only [hx]
    exact h
  | some c =>
    simp only [hx]
    split_ifs
    · exact h
    · exact strAppend_ne_left x "," h

/-- One marshaled array element distributes over a non-empty suffix. -/
theorem sAppendBVal_append (b x : String) (m : BVal) (h : x ≠ "") :
    sAppendBVal (b ++ x) m = b ++ sAppendBVal x m := by
  cases m with
  | bstr s => simp [sAppendBVal, sAppendStringQ, String.append_assoc]
  | bint n => simp [sAppendBVal, String.append_assoc]
  | bbool v => simp [sAppendBVal, String.append_assoc]
  | bbytes s =>
    simp only [sAppendBVal, sAppendByteStringQ, sSep_append b x h, String.append_assoc]

/-- One marshaled array element keeps a non-empty buffer non-empty. -/
theorem sAppendBVal_ne (x : String) (m : BVal) (h : x ≠ "") : sAppendBVal x m ≠ "" := by
  cases m with
  | bstr s => exact strAppend_ne_left _ _ (strAppend_ne_left _ _ (strAppend_ne_left x _ h))
  | bint n => exact strAppend_ne_left x _ h
  | bbool v => exact strAppend_ne_left x _ h
  | bbytes s =>
    exact strAppend_ne_left _ _ (strAppend_ne_left _ _ (strAppend_ne_left _ _ (sSep_ne x h)))

/-- The array-element fold distributes over a non-empty suffix. -/
theorem sFold_append (xs : List BVal) : ∀ b x : String, x ≠ "" →
    xs.foldl sAppendBVal (b ++ x) = b ++ xs.foldl sAppendBVal x := by
  induction xs with
  | nil => intro b x _; rfl
  | cons m ms ih =>
    intro b x h
    rw [List.foldl_cons, List.foldl_cons, sAppendBVal_append b x m h,
      ih b (sAppendBVal x m) (sAppendBVal_ne x m h)]

/-- The array appender writes a buffer-independent rendering after the
existing buffer contents. -/
theorem sAppendArray_shift (b : String) (xs : List BVal) :
    sAppendArray b xs = b ++ sAppendArray "" xs := by
  unfold sAppendArray
  rw [show b ++ "[" = b ++ ("" ++ "[") from rfl, sFold_append xs b ("" ++ "[") (by decide),
    String.append_assoc]

/-- The object key writer distributes over a non-empty suffix. -/
theorem sAddKey_append (b x : String) (k : List Nat) (h : x ≠ "") :
    sAddKey (b ++ x) k = b ++ sAddKey x k := by
  simp only [sAddKey, sAppendStringQ, sSep_append b x h, String.append_assoc]

/-- The object key writer keeps a non-empty buffer non-empty. -/
theorem sAddKey_ne (x : String) (k : List Nat) (h : x ≠ "") : sAddKey x k ≠ "" := by
  exact strAppend_ne_left _ _
    (strAppend_ne_left _ _ (strAppend_ne_left _ _ (strAppend_ne_left _ _ (sSep_ne x h))))

/-- One marshaled object entry distributes over a non-empty suffix. -/
theorem sAddBVal_append (b x : String) (kv : List Nat × BVal) (h : x ≠ "") :
    sAddBVal (b ++ x) kv = b ++ sAddBVal x kv := by
  obtain ⟨k, m⟩ := kv
  cases m with
  | bstr s => simp [sAddBVal, sAppendStringQ, sAddKey_append b x k h, String.append_assoc]
  | bint n => simp [sAddBVal, sAddKey_append b x k h, String.append_assoc]
  | bbool v => simp [sAddBVal, sAddKey_append b x k h, String.append_assoc]
  | bbytes s => simp [sAddBVal, sAppendStringQ, sAddKey_append b x k h, String.append_assoc]

/-- One marshaled object entry keeps a non-empty buffer non-empty. -/
theorem sAddBVal_ne (x : String) (kv : List Nat × BVal) (h : x ≠ "") : sAddBVal x kv ≠ "" := by
  obtain ⟨k, m⟩ := kv
  cases m with
  | bstr s =>
    simp only [sAddBVal, sAppendStringQ]
    exact strAppend_ne_left _ _ (strAppend_ne_left _ _ (strAppend_ne_left _ _ (sAddKey_ne x k h)))
  | bint n =>
    simp only [sAddBVal]
    exact strAppend_ne_left _ _ (sAddKey_ne x k h)
  | bbool v =>
    simp only [sAddBVal]
    exact strAppend_ne_left _ _ (sAddKey_ne x k h)
  | bbytes s =>
    simp only [sAddBVal, sAppendStringQ]
    exact strAppend_ne_left _ _ (strAppend_ne_left _ _ (strAppend_ne_left _ _ (sAddKey_ne x k h)))

/-- The object-entry fold distributes over a non-empty suffix. -/
theorem sFoldObj_append (kvs : List (List Nat × BVal)) : ∀ b x : String, x ≠ "" →
    kvs.foldl sAddBVal (b ++ x) = b ++ kvs.foldl sAddBVal x := by
  induction kvs with
  | nil => intro b x _; rfl
  | cons kv ms ih =>
    intro b x h
    rw [List.foldl_cons, List.foldl_cons, sAddBVal_append b x kv h,
      ih b (sAddBVal x kv) (sAddBVal_ne x kv h)]

/-- The object appender writes a buffer-independent rendering after the
existing buffer contents. -/
theorem sAppendObject_shift (b : String) (kvs : List (List Nat × BVal)) :
    sAppendObject b kvs = b ++ sAppendObject "" kvs := by
  unfold sAppendObject
  rw [show b ++ "\x7b" = b ++ ("" ++ "\x7b") from rfl,
    sFoldObj_append kvs b ("" ++ "\x7b") (by decide), String.append_assoc]

/-! ## Claim-side rendering of a text entry -/

/-- The bytes a text-encoder key contributes: the key wrapped in the current
color (when one is set) and `=`. -/
def ckey (color k : String) : String :=
  if color ≠ "" then color ++ k ++ colorEnd ++ "=" else k ++ "="

/-- The text a single field contributes to the text encoder's line. -/
def textFieldRender (cfg : Config) (fmtT color : String) : LogField → String
  | .str k v => ckey color k ++ v
  | .byteStr k v => ckey color k ++ bytesAsString v
  | .binary k v => ckey color k ++ ("\"" ++ base64Encode v ++ "\"")
  | .bool k b => ckey color k ++ (if b then "true" else "false")
  | .int64 k n => ckey color k ++ toString n
  | .uint64 k n => ckey color k ++ toString n
  | .float64 k x => ckey color k ++ f64String x
  | .duration k dv =>
    ckey color k ++ (match cfg.encodeDuration with | some fn => fn dv | none => durString dv)
  | .time k t =>
    ckey color k ++ (match cfg.encodeTime with | some fn => fn t | none => goTimeFormat t fmtT)
  | .arr k xs => ckey color k ++ sAppendArray "" xs
  | .obj k kvs => ckey color k ++ sAppendObject "" kvs
  | .reflected k v =>
    match jsonMarshal v with
    | .ok bs => bytesAsString bs
    | .error m => ckey color (k ++ "Error") ++ m

/-- Concatenation of the field renderings, each followed by one space. -/
def textFieldsRender (cfg : Config) (fmtT color : String) : List LogField → String
  | [] => ""
  | f :: fs => (textFieldRender cfg fmtT color f ++ " ") ++ textFieldsRender cfg fmtT color fs

/-- The key writer appends exactly the rendered key. -/
theorem textAddKey_render (e : TextEnc) (k : String) :
    textEncoder.addKey e k = {e with buf := e.buf ++ ckey e.colorStart k} := by
  by_cases hc : e.colorStart = "" <;>
    simp [textEncoder.addKey, ckey, hc, String.append_assoc]

/-- Applying one field to the text encoder appends exactly that field's
rendering. -/
theorem textAddTo_render (e : TextEnc) (f : LogField) :
    textEncoder.addTo e f =
      {e with buf := e.buf ++ textFieldRender e.cfg e.formatTime e.colorStart f} := by
  cases f with
  | str k v =>
    by_cases hc : e.colorStart = "" <;>
      simp [textEncoder.addTo, textEncoder.applyField, textEncoder.AddString,
        textEncoder.AppendString, textEncoder.addKey, textFieldRender, ckey, hc,
        String.append_assoc]
  | byteStr k v =>
    by_cases hc : e.colorStart = "" <;>
      simp [textEncoder.addTo, textEncoder.applyField, textEncoder.AddByteString,
        textEncoder.AddString, textEncoder.AppendString, textEncoder.addKey, textFieldRender,
        ckey, hc, String.append_assoc]
  | binary k v =>
    by_cases hc : e.colorStart = "" <;>
      simp [textEncoder.addTo, textEncoder.applyField, textEncoder.AddBinary,
        textEncoder.AddString, textEncoder.AppendString, textEncoder.addKey, textFieldRender,
        ckey, hc, String.append_assoc]
  | bool k v =>
    by_cases hc : e.colorStart = "" <;>
      simp [textEncoder.addTo, textEncoder.applyField, textEncoder.AddBool,
        textEncoder.AppendBool, textEncoder.addKey, textFieldRender, ckey, hc,
        String.append_assoc]
  | int64 k v =>
    by_cases hc : e.colorStart = "" <;>
      simp [textEncoder.addTo, textEncoder.applyField, textEncoder.AddInt64,
        textEncoder.AppendInt64, textEncoder.addKey, textFieldRender, ckey, hc,
        String.append_assoc]
  | uint64 k v =>
    by_cases hc : e.colorStart = "" <;>
      simp [textEncoder.addTo, textEncoder.applyField, textEncoder.AddUint64,
        textEncoder.AppendUint64, textEncoder.addKey, textFieldRender, ckey, hc,
        String.append_assoc]
  | float64 k v =>
    by_cases hc : e.colorStart = "" <;> cases v <;>
      simp [textEncoder.addTo, textEncoder.applyField, textEncoder.AddFloat64,
        textEncoder.AppendFloat64, textEncoder.AppendString, textEncoder.addKey,
        textFieldRender, f64String, ckey, hc, String.append_assoc]
  | duration k v =>
    by_cases hc : e.colorStart = "" <;> cases hd : e.cfg.encodeDuration <;>
      simp [textEncoder.addTo, textEncoder.applyField, textEncoder.AddDuration,
        textEncoder.AppendDuration, textEncoder.addKey, textFieldRender, ckey, hc, hd,
        String.append_assoc]
  | time k t =>
    by_cases hc : e.colorStart = "" <;> cases hd : e.cfg.encodeTime <;>
      simp [textEncoder.addTo, textEncoder.applyField, textEncoder.AddTime,
        textEncoder.AppendTime, textEncoder.addKey, textFieldRender, ckey, hc, hd,
        String.append_assoc]
  | arr k xs =>
    simp only [textEncoder.addTo, textEncoder.applyField, textEncoder.AddArray,
      textEncoder.AppendArray, textAddKey_render, textFieldRender]
    rw [sAppendArray_shift]
    simp [String.append_assoc]
  | obj k kvs =>
    simp only [textEncoder.addTo, textEncoder.applyField, textEncoder.AddObject,
      textEncoder.AppendObject, textAddKey_render, textFieldRender]
    rw [sAppendObject_shift]
    simp [String.append_assoc]
  | reflected k v =>
    cases v with
    | marshalable bs =>
      simp [textEncoder.addTo, textEncoder.applyField, textEncoder.AddReflected, jsonMarshal,
        textEncoder.AppendByteString, textFieldRender, String.append_assoc]
    | unmarshalable m =>
      by_cases hc : e.colorStart = "" <;>
        simp [textEncoder.addTo, textEncoder.applyField, textEncoder.AddReflected, jsonMarshal,
          textEncoder.AddString, textEncoder.AppendString, textEncoder.addKey, LogField.key,
          textFieldRender, ckey, hc, String.append_assoc]

/-- The per-entry field fold appends exactly the concatenated renderings. -/
theorem textFold_render (fields : List LogField) : ∀ e : TextEnc,
    (fields.foldl (fun acc f =>
      let a := textEncoder.addTo acc f
      {a with buf := a.buf ++ " "}) e) =
      {e with buf := e.buf ++ textFieldsRender e.cfg e.formatTime e.colorStart fields} := by
  induction fields with
  | nil =>
    intro e
    simp [textFieldsRender, String.append_empty]
  | cons f fs ih =>
    intro e
    rw [List.foldl_cons]
    have ha := textAddTo_render e f
    simp only [ha]
    rw [ih]
    simp [textFieldsRender, String.append_assoc]

/-- The full text line as actually produced: color, upper-cased level name,
reset, the `fmt.Sprintf(" %-44s ")` message field (padded to minimum width
44, never truncated), each field's rendering followed by one space, and a
newline. -/
def c5Render (cfg : Config) (fmtT : String) (entry : Entry) (fields : List LogField) : String :=
  textEncoder.levelColor entry.level ++ textEncoder.goToUpper entry.level.string ++ colorEnd ++
    (" " ++ textEncoder.padRight entry.message 44 ++ " ") ++
    textFieldsRender cfg fmtT (textEncoder.levelColor entry.level) fields ++ "\n"

/-- The severity color is never the empty string. -/
theorem levelColor_ne (l : Level) : textEncoder.levelColor l ≠ "" := by
  cases l <;> simp [textEncoder.levelColor, redColor, yellowColor, blueColor]

/-- C5 amended: the text encoder's entry line is exactly `c5Render`: the
severity color, the upper-cased level name, the color reset, a space, the
message left-justified and padded to a minimum of 44 columns (longer
messages are emitted in full, not truncated), a space, each field rendered
as the colored key, `=`, and the value, each followed by a single space, and
a trailing newline. -/
theorem c5_text_encode_amended (e : TextEnc) (entry : Entry) (fields : List LogField) :
    textEncoder.EncodeEntry e entry fields = c5Render e.cfg e.formatTime entry fields := by
  have hcolor := levelColor_ne entry.level
  unfold textEncoder.EncodeEntry c5Render
  simp only [textFold_render]
  simp [TextEnc.clone, textEncoder.addMessage, textEncoder.AppendString, hcolor,
    String.append_assoc, strEmptyAppend]

/-- The message field as the claim describes it: truncated to exactly 44
columns when longer. -/
def fix44Claim (s : String) : String :=
  String.mk ((s.data ++ List.replicate (44 - s.data.length) ' ').take 44)

/-- The text line as claim C5 prescribes it: identical to the produced line
except that the message field occupies exactly 44 columns. -/
def c5ClaimRender (cfg : Config) (fmtT : String) (entry : Entry)
    (fields : List LogField) : String :=
  textEncoder.levelColor entry.level ++ textEncoder.goToUpper entry.level.string ++ colorEnd ++
    (" " ++ fix44Claim entry.message ++ " ") ++
    textFieldsRender cfg fmtT (textEncoder.levelColor entry.level) fields ++ "\n"

/-- C5 counterexample: the claim says the message is truncated to the fixed
44-column field when longer. For a 50-character message the encoder emits
all 50 characters — the produced line differs from the claim's (truncating)
rendering at this concrete input. -/
theorem c5_counterexample :
    textEncoder.EncodeEntry (newTextEncoder {}) ⟨.InfoLevel, String.mk (List.replicate 50 'a')⟩
        [] ≠
      c5ClaimRender {} rfc3339 ⟨.InfoLevel, String.mk (List.replicate 50 'a')⟩ [] := by
  decide

/-- C10: the buffer returned by `EncodeEntry` of the text and CLF encoders
depends only on the entry, the fields and the shared configuration; any
state accumulated on the receiver (buffer bytes, CLF columns, color) never
reaches the output, because encoding starts from a fresh sibling. -/
theorem c10_fresh_sibling_isolation (e1 e2 : TextEnc) (d1 d2 : List String) (cfg : Config)
    (entry : Entry) (fields : List LogField) (s : String) :
    (e1.cfg = e2.cfg → e1.formatTime = e2.formatTime →
      textEncoder.EncodeEntry e1 entry fields = textEncoder.EncodeEntry e2 entry fields) ∧
    textEncoder.EncodeEntry {e1 with buf := s} entry fields =
      textEncoder.EncodeEntry e1 entry fields ∧
    textEncoder.EncodeEntry (e1.CloneCarrying) entry fields =
      textEncoder.EncodeEntry e1 entry fields ∧
    clfEncoder.EncodeEntry d1 cfg entry fields = clfEncoder.EncodeEntry d2 cfg entry fields := by
  refine ⟨?_, ?_, ?_, rfl⟩
  · intro h1 h2
    cases e1
    cases e2
    simp only at h1 h2
    subst h1
    subst h2
    rfl
  · cases e1
    rfl
  · cases e1
    rfl

/-- Witness for C10: receivers with different accumulated buffers, colors and
CLF columns produce identical output. -/
theorem c10_fresh_sibling_isolation_witness :
    textEncoder.EncodeEntry ⟨{}, "stale context ", rfc3339, redColor⟩ ⟨.InfoLevel, "m"⟩
        [.str "a" "b"] =
      textEncoder.EncodeEntry (newTextEncoder {}) ⟨.InfoLevel, "m"⟩ [.str "a" "b"] ∧
    clfEncoder.EncodeEntry ["x", "x", "x", "x", "x", "x", "x", "x", "x", "x", "x"] {}
        ⟨.InfoLevel, "m"⟩ [.str "status" "200"] =
      clfEncoder.EncodeEntry clfFieldsEmpty {} ⟨.InfoLevel, "m"⟩ [.str "status" "200"] :=
  ⟨(c10_fresh_sibling_isolation ⟨{}, "stale context ", rfc3339, redColor⟩ (newTextEncoder {})
      clfFieldsEmpty clfFieldsEmpty {} ⟨.InfoLevel, "m"⟩ [.str "a" "b"] "").1 rfl rfl,
   (c10_fresh_sibling_isolation (newTextEncoder {}) (newTextEncoder {})
      ["x", "x", "x", "x", "x", "x", "x", "x", "x", "x", "x"] clfFieldsEmpty {}
      ⟨.InfoLevel, "m"⟩ [.str "status" "200"] "").2.2.2⟩
